import Mathlib

/- Verification of the protocol-translation core of Antigravity-Manager
   (src-tauri/src/proxy).  The sections below give a shallow embedding of
   the JSON data model (serde_json::Value), the streaming state machine of
   claude_converter.rs, the request-translation and schema-sanitizer code of
   converter.rs, and the retry policy of retry_handler.rs, followed by
   theorems settling the frozen claims. -/

set_option maxRecDepth 10000

/- ===== JSON values (serde_json::Value) =====
   Mutual inductive so that all recursive functions below are structural and
   kernel-reducible.  Numbers are modelled as integers: every number the
   verified code inspects (token counts, validation bounds) is integral;
   serde's as_i64 returns none on non-integers, which the model mirrors by
   jnum being the only numeric constructor. -/

mutual

inductive J where
  | null
  | jbool (b : Bool)
  | jnum (n : Int)
  | jstr (s : String)
  | jarr (elems : JArr)
  | jobj (fields : JObj)

inductive JArr where
  | nil
  | cons (hd : J) (tl : JArr)

inductive JObj where
  | nil
  | cons (key : String) (val : J) (tl : JObj)

end

def JArr.ofList : List J → JArr
  | [] => .nil
  | x :: xs => .cons x (JArr.ofList xs)

def JObj.ofList : List (String × J) → JObj
  | [] => .nil
  | (k, v) :: xs => .cons k v (JObj.ofList xs)

/-- Convenience constructor for array literals. -/
def J.arr (l : List J) : J := .jarr (JArr.ofList l)

/-- Convenience constructor for object literals. -/
def J.obj (l : List (String × J)) : J := .jobj (JObj.ofList l)

/-- First binding for a key (serde maps produced by parsing have unique keys). -/
def JObj.lookup : JObj → String → Option J
  | .nil, _ => none
  | .cons k v tl, key => if k = key then some v else tl.lookup key

/-- Value::get on objects; none for any other value. -/
def J.get : J → String → Option J
  | .jobj o, k => o.lookup k
  | _, _ => none

/-- Value::index (`v["k"]`): Null when the key is absent or v is not an object. -/
def J.getD (j : J) (k : String) : J := (j.get k).getD J.null

/-- Value::as_str. -/
def J.as_str : J → Option String
  | .jstr s => some s
  | _ => none

/-- Value::as_bool. -/
def J.as_bool : J → Option Bool
  | .jbool b => some b
  | _ => none

/-- Value::as_i64. -/
def J.as_i64 : J → Option Int
  | .jnum n => some n
  | _ => none

/-- Value::as_array. -/
def J.as_array : J → Option JArr
  | .jarr a => some a
  | _ => none

def JArr.isEmpty : JArr → Bool
  | .nil => true
  | .cons _ _ => false

def JArr.head? : JArr → Option J
  | .nil => none
  | .cons x _ => some x

/- ===== Compact JSON rendering (serde_json::to_string / Display) ===== -/

def hexDigit (n : Nat) : Char :=
  if n < 10 then Char.ofNat (48 + n) else Char.ofNat (87 + n)

/-- Four-digit lowercase hex, as serde emits for control characters. -/
def hex4 (n : Nat) : String :=
  String.mk [hexDigit (n / 4096 % 16), hexDigit (n / 256 % 16),
             hexDigit (n / 16 % 16), hexDigit (n % 16)]

def escapeChar (c : Char) : String :=
  if c = '"' then "\\\""
  else if c = '\\' then "\\\\"
  else if c = '\n' then "\\n"
  else if c = '\r' then "\\r"
  else if c = '\t' then "\\t"
  else if c = (Char.ofNat 8) then "\\b"
  else if c = (Char.ofNat 12) then "\\f"
  else if c.toNat < 32 then "\\u" ++ hex4 c.toNat
  else String.singleton c

def escapeString (s : String) : String :=
  String.join (s.data.map escapeChar)

mutual

def renderJ : J → String
  | .null => "null"
  | .jbool true => "true"
  | .jbool false => "false"
  | .jnum n => toString n
  | .jstr s => "\"" ++ escapeString s ++ "\""
  | .jarr a => "[" ++ renderArr a ++ "]"
  | .jobj o => "\x7b" ++ renderObj o ++ "\x7d"
termination_by structural j => j

def renderArr : JArr → String
  | .nil => ""
  | .cons x .nil => renderJ x
  | .cons x tl => renderJ x ++ "," ++ renderArr tl
termination_by structural a => a

def renderObj : JObj → String
  | .nil => ""
  | .cons k v .nil => "\"" ++ escapeString k ++ "\":" ++ renderJ v
  | .cons k v tl => "\"" ++ escapeString k ++ "\":" ++ renderJ v ++ "," ++ renderObj tl
termination_by structural o => o

end

/- ===== Stream converter (claude_converter.rs) =====

   BlockType, the converter state and the event constructors mirror the Rust
   source.  A StreamEvent in the source is a pair of an event-name string and
   a serialized JSON payload; the embedding keeps the payload structured (the
   fields the source writes into the json! literals), which determines the
   name/data pair uniquely. -/

inductive BlockType where
  | none
  | text
  | thinking
  | toolUse
deriving DecidableEq, Repr

inductive ContentBlock where
  /-- payload: type "text", text "" -/
  | text
  /-- payload: type "thinking", thinking "" -/
  | thinking
  /-- payload: type "tool_use", id, name, input empty object, optional signature -/
  | toolUse (id : String) (name : String) (signature : Option String)
deriving DecidableEq, Repr

inductive DeltaPayload where
  | textDelta (text : String)
  | thinkingDelta (thinking : String)
  | signatureDelta (signature : String)
  | inputJsonDelta (partial_json : String)
deriving DecidableEq, Repr

inductive StreamEvent where
  | content_block_start (index : Nat) (content_block : ContentBlock)
  | content_block_delta (index : Nat) (delta : DeltaPayload)
  | content_block_stop (index : Nat)
  | message_delta (stop_reason : String) (output_tokens : Int)
  | message_stop
deriving DecidableEq, Repr

structure ClaudeStreamConverter where
  block_index : Nat
  current_type : BlockType
  message_start_sent : Bool
  message_stop_sent : Bool
  used_tool : Bool
  pending_signature : Option String
  trailing_signature : Option String
  has_content : Bool
deriving DecidableEq, Repr

/-- ClaudeStreamConverter::new. -/
def ClaudeStreamConverter.new : ClaudeStreamConverter :=
  { block_index := 0
    current_type := .none
    message_start_sent := false
    message_stop_sent := false
    used_tool := false
    pending_signature := none
    trailing_signature := none
    has_content := false }

/-- ClaudeStreamConverter::end_block.  pending_signature.take() is only
    reached in the thinking branch, so it is cleared exactly then. -/
def end_block (s : ClaudeStreamConverter) : ClaudeStreamConverter × List StreamEvent :=
  if s.current_type = .none then (s, [])
  else
    let sigEvs : List StreamEvent :=
      match s.current_type, s.pending_signature with
      | .thinking, some sig => [.content_block_delta s.block_index (.signatureDelta sig)]
      | _, _ => []
    let pending' := if s.current_type = .thinking then none else s.pending_signature
    ({ s with block_index := s.block_index + 1
              current_type := .none
              pending_signature := pending' },
     sigEvs ++ [.content_block_stop s.block_index])

/-- ClaudeStreamConverter::emit_trailing_signature_block.  The source guards
    the call with trailing_signature.is_some(); the none branch here is the
    identity, so calling it unconditionally is the same. -/
def emit_trailing_signature_block (s : ClaudeStreamConverter) :
    ClaudeStreamConverter × List StreamEvent :=
  match s.trailing_signature with
  | none => (s, [])
  | some sig =>
    let r := end_block { s with trailing_signature := none }
    let idx := r.1.block_index
    ({ r.1 with block_index := idx + 1 },
     r.2 ++ [.content_block_start idx .thinking,
             .content_block_delta idx (.thinkingDelta ""),
             .content_block_delta idx (.signatureDelta sig),
             .content_block_stop idx])

/-- ClaudeStreamConverter::process_thinking. -/
def process_thinking (s : ClaudeStreamConverter) (text : String) (signature : Option String) :
    ClaudeStreamConverter × List StreamEvent :=
  let r1 := if s.current_type = .text then end_block s else (s, [])
  let r2 :=
    if r1.1.current_type = .none then
      ({ r1.1 with current_type := BlockType.thinking },
       [StreamEvent.content_block_start r1.1.block_index .thinking])
    else (r1.1, ([] : List StreamEvent))
  let evs3 :=
    if text ≠ "" then [StreamEvent.content_block_delta r2.1.block_index (.thinkingDelta text)]
    else []
  let s3 := match signature with
    | some sig => { r2.1 with pending_signature := some sig }
    | none => r2.1
  (s3, r1.2 ++ r2.2 ++ evs3)

/-- ClaudeStreamConverter::process_text. -/
def process_text (s : ClaudeStreamConverter) (text : String) :
    ClaudeStreamConverter × List StreamEvent :=
  let r1 := if s.current_type = .thinking then end_block s else (s, [])
  let r2 :=
    if r1.1.current_type = .none then
      ({ r1.1 with current_type := BlockType.text },
       [StreamEvent.content_block_start r1.1.block_index .text])
    else (r1.1, ([] : List StreamEvent))
  (r2.1, r1.2 ++ r2.2 ++ [.content_block_delta r2.1.block_index (.textDelta text)])

/-- ClaudeStreamConverter::process_text_with_signature. -/
def process_text_with_signature (s : ClaudeStreamConverter) (text : String)
    (signature : Option String) : ClaudeStreamConverter × List StreamEvent :=
  let r1 := end_block s
  let s2 := { r1.1 with current_type := BlockType.text }
  let evs2 := [StreamEvent.content_block_start r1.1.block_index .text,
               StreamEvent.content_block_delta r1.1.block_index (.textDelta text)]
  let r3 := end_block s2
  let r4 :=
    match signature with
    | some sig =>
      ({ r3.1 with block_index := r3.1.block_index + 1 },
       [StreamEvent.content_block_start r3.1.block_index .thinking,
        StreamEvent.content_block_delta r3.1.block_index (.thinkingDelta ""),
        StreamEvent.content_block_delta r3.1.block_index (.signatureDelta sig),
        StreamEvent.content_block_stop r3.1.block_index])
    | none => (r3.1, ([] : List StreamEvent))
  (r4.1, r1.2 ++ evs2 ++ r3.2 ++ r4.2)

/-- ClaudeStreamConverter::process_function_call.  The id generated when the
    functionCall carries none is name-{first uuid segment}; the uuid is
    external randomness, modelled by a fixed eight-character token (no claim
    depends on its value). -/
def process_function_call (s : ClaudeStreamConverter) (fc : J) (signature : Option String) :
    ClaudeStreamConverter × List StreamEvent :=
  let r1 := end_block s
  let name := ((fc.get "name").bind J.as_str).getD "unknown"
  let args := (fc.get "args").getD (J.obj [])
  let id :=
    match (fc.get "id").bind J.as_str with
    | some i => i
    | none => name ++ "-" ++ "00000000"
  let args_str := renderJ args
  let s2 := { r1.1 with current_type := BlockType.toolUse, used_tool := true }
  (s2, r1.2 ++ [.content_block_start r1.1.block_index (.toolUse id name signature),
                .content_block_delta r1.1.block_index (.inputJsonDelta args_str)])

/-- ClaudeStreamConverter::emit_finish. -/
def emit_finish (s : ClaudeStreamConverter) (finish_reason : String) (usage : Option J) :
    ClaudeStreamConverter × List StreamEvent :=
  let r1 := end_block s
  let r2 := emit_trailing_signature_block r1.1
  let stop_reason :=
    if r2.1.used_tool then "tool_use"
    else if finish_reason = "length" ∨ finish_reason = "MAX_TOKENS" then "max_tokens"
    else if finish_reason = "stop" ∨ finish_reason = "STOP" then "end_turn"
    else if finish_reason = "tool_calls" ∨ finish_reason = "function_call" then "tool_use"
    else "end_turn"
  let output_tokens : Int :=
    ((usage.bind (fun u => (u.get "completion_tokens").or (u.get "output_tokens"))).bind
      J.as_i64).getD 0
  let evs3 := [StreamEvent.message_delta stop_reason output_tokens]
  let r4 :=
    if r2.1.message_stop_sent then (r2.1, ([] : List StreamEvent))
    else ({ r2.1 with message_stop_sent := true }, [StreamEvent.message_stop])
  (r4.1, r1.2 ++ r2.2 ++ evs3 ++ r4.2)

/-- Steps 3 and 4 of ClaudeStreamConverter::process_chunk (thinking / text
    handling, source lines 124-146), reached when the delta carries neither a
    functionCall nor the empty-text-with-signature shape. -/
def process_content_step (s0 : ClaudeStreamConverter) (delta_content : String)
    (is_thought : Bool) (thought_signature : Option String) :
    ClaudeStreamConverter × List StreamEvent :=
  if is_thought then
    let rA := emit_trailing_signature_block s0
    let rB := process_thinking rA.1 delta_content thought_signature
    (rB.1, rA.2 ++ rB.2)
  else if delta_content ≠ "" then
    let rA := emit_trailing_signature_block s0
    let rB :=
      if thought_signature.isSome then
        process_text_with_signature rA.1 delta_content thought_signature
      else process_text rA.1 delta_content
    (rB.1, rA.2 ++ rB.2)
  else (s0, ([] : List StreamEvent))

/-- State-machine part of ClaudeStreamConverter::process_chunk (everything
    after the has_content update, source lines 105-154).  Factored out so that
    the balance lemmas can quantify over the already-updated state s0. -/
def process_chunk_rest (s0 : ClaudeStreamConverter) (json_chunk choice : J) :
    ClaudeStreamConverter × List StreamEvent :=
    let delta := choice.getD "delta"
    let delta_content := ((delta.get "content").bind J.as_str).getD ""
    let is_thought := ((delta.get "thought").bind J.as_bool).getD false
    let thought_signature := (delta.get "thoughtSignature").bind J.as_str
    let function_call := delta.get "functionCall"
    match function_call with
    | some fc =>
      let rA := emit_trailing_signature_block s0
      let rB := process_function_call rA.1 fc thought_signature
      (rB.1, rA.2 ++ rB.2)
    | none =>
      if delta_content = "" ∧ is_thought = false ∧ thought_signature.isSome then
        ({ s0 with trailing_signature := thought_signature }, [])
      else
        let r1 := process_content_step s0 delta_content is_thought thought_signature
        match (choice.get "finish_reason").bind J.as_str with
        | some reason =>
          let usage := json_chunk.get "usage"
          let rF := emit_finish r1.1 reason usage
          (rF.1, r1.2 ++ rF.2)
        | none => (r1.1, r1.2)

/-- has_content update of process_chunk (source lines 100-103). -/
def has_content_update (s : ClaudeStreamConverter) (choice : J) : ClaudeStreamConverter :=
  let delta := choice.getD "delta"
  let delta_content := ((delta.get "content").bind J.as_str).getD ""
  let is_thought := ((delta.get "thought").bind J.as_bool).getD false
  let thought_signature := (delta.get "thoughtSignature").bind J.as_str
  let function_call := delta.get "functionCall"
  if delta_content ≠ "" ∨ is_thought = true ∨ thought_signature.isSome ∨
      function_call.isSome then
    { s with has_content := true }
  else s

/-- ClaudeStreamConverter::process_chunk. -/
def process_chunk (s : ClaudeStreamConverter) (json_chunk : J) :
    ClaudeStreamConverter × List StreamEvent :=
  match (json_chunk.get "choices").bind J.as_array with
  | none => (s, [])
  | some .nil => (s, [])
  | some (.cons choice _) =>
    process_chunk_rest (has_content_update s choice) json_chunk choice

/-- Feeding a whole list of chunks to a fresh converter, concatenating the
    emitted events. -/
def process_all (chunks : List J) : ClaudeStreamConverter × List StreamEvent :=
  chunks.foldl
    (fun acc c =>
      let r := process_chunk acc.1 c
      (r.1, acc.2 ++ r.2))
    (ClaudeStreamConverter.new, [])

/- ===== Balance validator for SSE event sequences (claims C1, P1, P2) =====

   A small automaton over the emitted events: it accepts exactly the
   sequences in which block events are properly bracketed, indices of
   successive blocks start at 0 and increase by one, and every
   content_block_delta lies inside the matching start/stop pair. -/

structure ScanSt where
  openBlock : Bool
  nextIndex : Nat
deriving DecidableEq, Repr

def scanEvent : ScanSt → StreamEvent → Option ScanSt
  | st, .content_block_start i _ =>
    if st.openBlock = false ∧ i = st.nextIndex then some ⟨true, st.nextIndex⟩ else none
  | st, .content_block_delta i _ =>
    if st.openBlock = true ∧ i = st.nextIndex then some st else none
  | st, .content_block_stop i =>
    if st.openBlock = true ∧ i = st.nextIndex then some ⟨false, st.nextIndex + 1⟩ else none
  | st, .message_delta _ _ => some st
  | st, .message_stop => some st

def scanEvents : ScanSt → List StreamEvent → Option ScanSt
  | st, [] => some st
  | st, e :: rest =>
    match scanEvent st e with
    | some st' => scanEvents st' rest
    | none => none

/-- An event sequence is balanced when the automaton accepts it from the
    initial state and no block is left open at the end. -/
def balanced (evs : List StreamEvent) : Bool :=
  match scanEvents ⟨false, 0⟩ evs with
  | some st => !st.openBlock
  | none => false

/-- The automaton state that corresponds to a converter state: a block is
    open iff current_type is not none, and the next block index is
    block_index. -/
def scanOf (s : ClaudeStreamConverter) : ScanSt :=
  ⟨(match s.current_type with | .none => false | _ => true), s.block_index⟩

theorem scanEvents_append (st : ScanSt) (a b : List StreamEvent) :
    scanEvents st (a ++ b) = (scanEvents st a).bind (fun st' => scanEvents st' b) := by
  induction a generalizing st with
  | nil => simp [scanEvents]
  | cons e rest ih =>
    simp only [List.cons_append, scanEvents]
    cases scanEvent st e with
    | none => rfl
    | some st' => exact ih st'

theorem scan_end_block (s : ClaudeStreamConverter) :
    scanEvents (scanOf s) (end_block s).2 = some (scanOf (end_block s).1) := by
  cases hc : s.current_type with
  | none => simp [end_block, hc, scanEvents, scanOf]
  | text => simp [end_block, hc, scanEvents, scanEvent, scanOf]
  | toolUse => simp [end_block, hc, scanEvents, scanEvent, scanOf]
  | thinking =>
    cases hp : s.pending_signature with
    | none => simp [end_block, hc, hp, scanEvents, scanEvent, scanOf]
    | some sig => simp [end_block, hc, hp, scanEvents, scanEvent, scanOf]

/-- After end_block no block is open. -/
theorem end_block_current (s : ClaudeStreamConverter) :
    (end_block s).1.current_type = .none := by
  unfold end_block
  split
  · assumption
  · rfl

theorem scan_emit_trailing (s : ClaudeStreamConverter) :
    scanEvents (scanOf s) (emit_trailing_signature_block s).2 =
      some (scanOf (emit_trailing_signature_block s).1) := by
  cases ht : s.trailing_signature with
  | none => simp [emit_trailing_signature_block, ht, scanEvents]
  | some sig =>
    have h1 := scan_end_block { s with trailing_signature := none }
    have h2 := end_block_current { s with trailing_signature := none }
    simp only [emit_trailing_signature_block, ht]
    rw [scanEvents_append]
    have hscan : scanOf { s with trailing_signature := none } = scanOf s := by
      simp [scanOf]
    rw [hscan] at h1
    rw [h1]
    simp [scanOf, h2, scanEvents, scanEvent]

theorem emit_trailing_current (s : ClaudeStreamConverter) :
    (emit_trailing_signature_block s).1.current_type =
      (if s.trailing_signature.isSome then .none else s.current_type) := by
  cases ht : s.trailing_signature with
  | none => simp [emit_trailing_signature_block, ht]
  | some sig =>
    simp [emit_trailing_signature_block, ht,
      end_block_current { s with trailing_signature := none }]

theorem emit_trailing_trailing (s : ClaudeStreamConverter) :
    (emit_trailing_signature_block s).1.trailing_signature = none ∨
      (emit_trailing_signature_block s).1.trailing_signature = s.trailing_signature := by
  cases ht : s.trailing_signature with
  | none => simp [emit_trailing_signature_block, ht]
  | some sig =>
    left
    simp [emit_trailing_signature_block, ht, end_block]
    split <;> rfl

theorem scanEvents_append_some {st1 st2 st3 : ScanSt} {a b : List StreamEvent}
    (ha : scanEvents st1 a = some st2) (hb : scanEvents st2 b = some st3) :
    scanEvents st1 (a ++ b) = some st3 := by
  rw [scanEvents_append, ha, Option.some_bind, hb]

theorem scan_process_thinking (s : ClaudeStreamConverter) (t : String) (sig : Option String) :
    scanEvents (scanOf s) (process_thinking s t sig).2 =
      some (scanOf (process_thinking s t sig).1) := by
  cases hc : s.current_type with
  | text =>
    cases hp : s.pending_signature with
    | none =>
      by_cases ht : t = "" <;>
        cases sig <;>
          simp [process_thinking, hc, hp, ht, end_block, scanEvents, scanEvent, scanOf]
    | some p =>
      by_cases ht : t = "" <;>
        cases sig <;>
          simp [process_thinking, hc, hp, ht, end_block, scanEvents, scanEvent, scanOf]
  | none =>
    by_cases ht : t = "" <;>
      cases sig <;>
        simp [process_thinking, hc, ht, end_block, scanEvents, scanEvent, scanOf]
  | thinking =>
    by_cases ht : t = "" <;>
      cases sig <;>
        simp [process_thinking, hc, ht, end_block, scanEvents, scanEvent, scanOf]
  | toolUse =>
    by_cases ht : t = "" <;>
      cases sig <;>
        simp [process_thinking, hc, ht, end_block, scanEvents, scanEvent, scanOf]

theorem scan_process_text (s : ClaudeStreamConverter) (t : String) :
    scanEvents (scanOf s) (process_text s t).2 = some (scanOf (process_text s t).1) := by
  cases hc : s.current_type with
  | thinking =>
    cases hp : s.pending_signature with
    | none => simp [process_text, hc, hp, end_block, scanEvents, scanEvent, scanOf]
    | some p => simp [process_text, hc, hp, end_block, scanEvents, scanEvent, scanOf]
  | none => simp [process_text, hc, end_block, scanEvents, scanEvent, scanOf]
  | text => simp [process_text, hc, end_block, scanEvents, scanEvent, scanOf]
  | toolUse => simp [process_text, hc, end_block, scanEvents, scanEvent, scanOf]

theorem scan_process_text_with_signature (s : ClaudeStreamConverter) (t : String)
    (sig : Option String) :
    scanEvents (scanOf s) (process_text_with_signature s t sig).2 =
      some (scanOf (process_text_with_signature s t sig).1) := by
  cases hc : s.current_type with
  | thinking =>
    cases hp : s.pending_signature with
    | none =>
      cases sig <;>
        simp [process_text_with_signature, hc, hp, end_block, scanEvents, scanEvent, scanOf]
    | some p =>
      cases sig <;>
        simp [process_text_with_signature, hc, hp, end_block, scanEvents, scanEvent, scanOf]
  | none =>
    cases sig <;>
      simp [process_text_with_signature, hc, end_block, scanEvents, scanEvent, scanOf]
  | text =>
    cases sig <;>
      simp [process_text_with_signature, hc, end_block, scanEvents, scanEvent, scanOf]
  | toolUse =>
    cases sig <;>
      simp [process_text_with_signature, hc, end_block, scanEvents, scanEvent, scanOf]

theorem scan_process_function_call (s : ClaudeStreamConverter) (fc : J)
    (sig : Option String) :
    scanEvents (scanOf s) (process_function_call s fc sig).2 =
      some (scanOf (process_function_call s fc sig).1) := by
  cases hc : s.current_type with
  | thinking =>
    cases hp : s.pending_signature with
    | none => simp [process_function_call, hc, hp, end_block, scanEvents, scanEvent, scanOf]
    | some p => simp [process_function_call, hc, hp, end_block, scanEvents, scanEvent, scanOf]
  | none => simp [process_function_call, hc, end_block, scanEvents, scanEvent, scanOf]
  | text => simp [process_function_call, hc, end_block, scanEvents, scanEvent, scanOf]
  | toolUse => simp [process_function_call, hc, end_block, scanEvents, scanEvent, scanOf]

theorem scan_emit_finish (s : ClaudeStreamConverter) (reason : String) (usage : Option J) :
    scanEvents (scanOf s) (emit_finish s reason usage).2 =
      some (scanOf (emit_finish s reason usage).1) := by
  have h1 := scan_end_block s
  have h2 := scan_emit_trailing (end_block s).1
  simp only [emit_finish]
  rw [scanEvents_append, scanEvents_append, scanEvents_append, h1]
  simp only [Option.some_bind]
  rw [h2]
  simp only [Option.some_bind]
  by_cases hm : (emit_trailing_signature_block (end_block s).1).1.message_stop_sent <;>
    simp [hm, scanEvents, scanEvent, scanOf]

theorem scan_process_content_step (s0 : ClaudeStreamConverter) (dc : String)
    (it : Bool) (ts : Option String) :
    scanEvents (scanOf s0) (process_content_step s0 dc it ts).2 =
      some (scanOf (process_content_step s0 dc it ts).1) := by
  cases it with
  | true =>
    simp only [process_content_step, reduceIte]
    exact scanEvents_append_some (scan_emit_trailing s0) (scan_process_thinking _ _ _)
  | false =>
    simp only [process_content_step, Bool.false_eq_true, reduceIte]
    by_cases hdc : dc = ""
    · simp [hdc, scanEvents]
    · rw [if_pos hdc]
      by_cases hts : ts.isSome
      · rw [if_pos hts]
        exact scanEvents_append_some (scan_emit_trailing s0)
          (scan_process_text_with_signature _ _ _)
      · rw [if_neg hts]
        exact scanEvents_append_some (scan_emit_trailing s0) (scan_process_text _ _)

theorem scan_process_chunk_rest (s0 : ClaudeStreamConverter) (jc choice : J) :
    scanEvents (scanOf s0) (process_chunk_rest s0 jc choice).2 =
      some (scanOf (process_chunk_rest s0 jc choice).1) := by
  simp only [process_chunk_rest]
  split
  · exact scanEvents_append_some (scan_emit_trailing s0) (scan_process_function_call _ _ _)
  · split
    · rfl
    · split
      · exact scanEvents_append_some (scan_process_content_step s0 _ _ _)
          (scan_emit_finish _ _ _)
      · exact scan_process_content_step s0 _ _ _

theorem scan_process_chunk (s : ClaudeStreamConverter) (c : J) :
    scanEvents (scanOf s) (process_chunk s c).2 = some (scanOf (process_chunk s c).1) := by
  cases hch : (c.get "choices").bind J.as_array with
  | none => simp [process_chunk, hch, scanEvents]
  | some arr =>
    cases arr with
    | nil => simp [process_chunk, hch, scanEvents]
    | cons choice rest =>
      simp only [process_chunk, hch]
      have h : scanOf (has_content_update s choice) = scanOf s := by
        simp only [has_content_update]; split <;> rfl
      rw [← h]
      exact scan_process_chunk_rest _ c choice

/- ===== Classification of emitted events and state-field preservation ===== -/

/-- Block-level events (content_block_start / delta / stop). -/
def isBlockEvent : StreamEvent → Bool
  | .content_block_start _ _ => true
  | .content_block_delta _ _ => true
  | .content_block_stop _ => true
  | .message_delta _ _ => false
  | .message_stop => false

theorem end_block_mss (s : ClaudeStreamConverter) :
    (end_block s).1.message_stop_sent = s.message_stop_sent := by
  unfold end_block; split <;> rfl

theorem end_block_ut (s : ClaudeStreamConverter) :
    (end_block s).1.used_tool = s.used_tool := by
  unfold end_block; split <;> rfl

theorem end_block_ts (s : ClaudeStreamConverter) :
    (end_block s).1.trailing_signature = s.trailing_signature := by
  unfold end_block; split <;> rfl

theorem emit_trailing_mss (s : ClaudeStreamConverter) :
    (emit_trailing_signature_block s).1.message_stop_sent = s.message_stop_sent := by
  cases ht : s.trailing_signature with
  | none => simp [emit_trailing_signature_block, ht]
  | some sig => simp [emit_trailing_signature_block, ht, end_block_mss]

theorem emit_trailing_ut (s : ClaudeStreamConverter) :
    (emit_trailing_signature_block s).1.used_tool = s.used_tool := by
  cases ht : s.trailing_signature with
  | none => simp [emit_trailing_signature_block, ht]
  | some sig => simp [emit_trailing_signature_block, ht, end_block_ut]

theorem emit_trailing_ts (s : ClaudeStreamConverter) :
    (emit_trailing_signature_block s).1.trailing_signature = none ∨
      s.trailing_signature = none := by
  cases ht : s.trailing_signature with
  | none => right; rfl
  | some sig => left; simp [emit_trailing_signature_block, ht, end_block_ts]

theorem emit_trailing_ts_none (s : ClaudeStreamConverter) :
    (emit_trailing_signature_block s).1.trailing_signature = none := by
  cases ht : s.trailing_signature with
  | none => simp [emit_trailing_signature_block, ht, ht]
  | some sig => simp [emit_trailing_signature_block, ht, end_block_ts]

theorem end_block_block_events (s : ClaudeStreamConverter) :
    ∀ e ∈ (end_block s).2, isBlockEvent e = true := by
  unfold end_block
  split
  · simp
  · split <;> simp [isBlockEvent]

theorem emit_trailing_block_events (s : ClaudeStreamConverter) :
    ∀ e ∈ (emit_trailing_signature_block s).2, isBlockEvent e = true := by
  cases ht : s.trailing_signature with
  | none => simp [emit_trailing_signature_block, ht]
  | some sig =>
    simp only [emit_trailing_signature_block, ht]
    intro e he
    simp only [List.mem_append, List.mem_cons, List.mem_singleton] at he
    rcases he with h | h
    · exact end_block_block_events _ e h
    · rcases h with h | h | h | h | h
      · subst h; rfl
      · subst h; rfl
      · subst h; rfl
      · subst h; rfl
      · simp at h

theorem process_thinking_block_events (s : ClaudeStreamConverter) (t : String)
    (sig : Option String) :
    ∀ e ∈ (process_thinking s t sig).2, isBlockEvent e = true := by
  cases hc : s.current_type <;>
    by_cases ht : t = "" <;>
      cases sig <;>
        cases hp : s.pending_signature <;>
          simp [process_thinking, hc, ht, hp, end_block, isBlockEvent]

theorem process_text_block_events (s : ClaudeStreamConverter) (t : String) :
    ∀ e ∈ (process_text s t).2, isBlockEvent e = true := by
  cases hc : s.current_type <;>
    cases hp : s.pending_signature <;>
      simp [process_text, hc, hp, end_block, isBlockEvent]

theorem process_tws_block_events (s : ClaudeStreamConverter) (t : String)
    (sig : Option String) :
    ∀ e ∈ (process_text_with_signature s t sig).2, isBlockEvent e = true := by
  cases hc : s.current_type <;>
    cases sig <;>
      cases hp : s.pending_signature <;>
        simp [process_text_with_signature, hc, hp, end_block, isBlockEvent]

theorem process_fc_block_events (s : ClaudeStreamConverter) (fc : J) (sig : Option String) :
    ∀ e ∈ (process_function_call s fc sig).2, isBlockEvent e = true := by
  cases hc : s.current_type <;>
    cases hp : s.pending_signature <;>
      simp [process_function_call, hc, hp, end_block, isBlockEvent]

theorem process_content_step_block_events (s : ClaudeStreamConverter) (dc : String)
    (it : Bool) (ts : Option String) :
    ∀ e ∈ (process_content_step s dc it ts).2, isBlockEvent e = true := by
  cases it with
  | true =>
    simp only [process_content_step, reduceIte]
    intro e he
    rcases List.mem_append.mp he with h | h
    · exact emit_trailing_block_events _ e h
    · exact process_thinking_block_events _ _ _ e h
  | false =>
    simp only [process_content_step, Bool.false_eq_true, reduceIte]
    by_cases hdc : dc = ""
    · simp [hdc]
    · rw [if_pos hdc]
      intro e he
      rcases List.mem_append.mp he with h | h
      · exact emit_trailing_block_events _ e h
      · by_cases hts : ts.isSome
        · rw [if_pos hts] at h
          exact process_tws_block_events _ _ _ e h
        · rw [if_neg hts] at h
          exact process_text_block_events _ _ e h

/- ===== Finish handling: decomposition of emit_finish ===== -/

/-- Stop-reason mapping of emit_finish (source lines 449-458) as a standalone
    function of the used_tool flag and the upstream finish_reason. -/
def finish_stop_reason (used_tool : Bool) (finish_reason : String) : String :=
  if used_tool then "tool_use"
  else if finish_reason = "length" ∨ finish_reason = "MAX_TOKENS" then "max_tokens"
  else if finish_reason = "stop" ∨ finish_reason = "STOP" then "end_turn"
  else if finish_reason = "tool_calls" ∨ finish_reason = "function_call" then "tool_use"
  else "end_turn"

/-- output_tokens extraction of emit_finish (source lines 461-464). -/
def usage_output_tokens (u : Option J) : Int :=
  ((u.bind (fun x => (x.get "completion_tokens").or (x.get "output_tokens"))).bind
    J.as_i64).getD 0

theorem emit_finish_events (s : ClaudeStreamConverter) (r : String) (u : Option J) :
    (emit_finish s r u).2 =
      (end_block s).2 ++ (emit_trailing_signature_block (end_block s).1).2 ++
        [StreamEvent.message_delta (finish_stop_reason s.used_tool r) (usage_output_tokens u)] ++
        (if s.message_stop_sent then [] else [StreamEvent.message_stop]) := by
  by_cases hm : s.message_stop_sent <;>
    simp [emit_finish, finish_stop_reason, usage_output_tokens, hm,
      emit_trailing_mss, end_block_mss, emit_trailing_ut, end_block_ut]

theorem emit_finish_current (s : ClaudeStreamConverter) (r : String) (u : Option J) :
    (emit_finish s r u).1.current_type = BlockType.none := by
  simp only [emit_finish]
  have h1 := emit_trailing_current (end_block s).1
  have h2 := end_block_current s
  by_cases hm : (emit_trailing_signature_block (end_block s).1).1.message_stop_sent <;>
    simp only [hm, reduceIte, if_true, if_false, Bool.false_eq_true] <;>
    rw [h1] <;> split
  · rfl
  · exact h2
  · rfl
  · exact h2

theorem emit_finish_trailing (s : ClaudeStreamConverter) (r : String) (u : Option J) :
    (emit_finish s r u).1.trailing_signature = none := by
  simp only [emit_finish]
  have h1 := emit_trailing_ts_none (end_block s).1
  by_cases hm : (emit_trailing_signature_block (end_block s).1).1.message_stop_sent <;>
    simp only [hm, reduceIte, if_true, if_false, Bool.false_eq_true] <;> exact h1

theorem emit_finish_mss_true (s : ClaudeStreamConverter) (r : String) (u : Option J)
    (h : s.message_stop_sent = true) :
    (emit_finish s r u).1.message_stop_sent = true := by
  simp only [emit_finish]
  have hm : (emit_trailing_signature_block (end_block s).1).1.message_stop_sent = true := by
    rw [emit_trailing_mss, end_block_mss]; exact h
  simp [hm]

/- ===== Chunk-shape predicates (the conditions process_chunk branches on) ===== -/

/-- choices[0] after the safety check of process_chunk (source lines 77-82). -/
def chunk_first_choice (c : J) : Option J :=
  match (c.get "choices").bind J.as_array with
  | some (.cons choice _) => some choice
  | _ => none

/-- The finish_reason carried by the chunk, if any (source line 149). -/
def chunk_finish_reason (c : J) : Option String :=
  (chunk_first_choice c).bind (fun ch => (ch.get "finish_reason").bind J.as_str)

/-- Whether the chunk's delta carries a functionCall (source line 98). -/
def chunk_has_function_call (c : J) : Bool :=
  match chunk_first_choice c with
  | some ch => ((ch.getD "delta").get "functionCall").isSome
  | none => false

/-- Whether the chunk's delta has the empty-text-with-signature shape of
    source line 119 (content empty, thought not true, thoughtSignature set). -/
def chunk_trailing_shape (c : J) : Bool :=
  match chunk_first_choice c with
  | some ch =>
    decide ((((ch.getD "delta").get "content").bind J.as_str).getD "" = "" ∧
      (((ch.getD "delta").get "thought").bind J.as_bool).getD false = false ∧
      (((ch.getD "delta").get "thoughtSignature").bind J.as_str).isSome = true)
  | none => false

/-- usage.completion_tokens / usage.output_tokens of the chunk, default 0. -/
def chunk_output_tokens (c : J) : Int := usage_output_tokens (c.get "usage")

/-- A chunk that passes the safety check of process_chunk. -/
def chunk_well_formed (c : J) : Bool := (chunk_first_choice c).isSome

theorem process_thinking_mss (s : ClaudeStreamConverter) (t : String) (sig : Option String) :
    (process_thinking s t sig).1.message_stop_sent = s.message_stop_sent := by
  cases hc : s.current_type <;>
    by_cases ht : t = "" <;>
      cases sig <;>
        simp [process_thinking, hc, ht, end_block]

theorem process_text_mss (s : ClaudeStreamConverter) (t : String) :
    (process_text s t).1.message_stop_sent = s.message_stop_sent := by
  cases hc : s.current_type <;> simp [process_text, hc, end_block]

theorem process_tws_mss (s : ClaudeStreamConverter) (t : String) (sig : Option String) :
    (process_text_with_signature s t sig).1.message_stop_sent = s.message_stop_sent := by
  cases hc : s.current_type <;>
    cases sig <;>
      simp [process_text_with_signature, hc, end_block]

theorem process_content_step_mss (s : ClaudeStreamConverter) (dc : String) (it : Bool)
    (ts : Option String) :
    (process_content_step s dc it ts).1.message_stop_sent = s.message_stop_sent := by
  cases it with
  | true =>
    simp only [process_content_step, reduceIte]
    rw [process_thinking_mss, emit_trailing_mss]
  | false =>
    simp only [process_content_step, Bool.false_eq_true, reduceIte]
    by_cases hdc : dc = ""
    · simp [hdc]
    · rw [if_pos hdc]
      by_cases hts : ts.isSome
      · rw [if_pos hts]
        rw [process_tws_mss, emit_trailing_mss]
      · rw [if_neg hts]
        rw [process_text_mss, emit_trailing_mss]

/-- When the chunk carries a finish_reason and neither of the two early-return
    shapes, process_chunk_rest runs the content step and then emit_finish. -/
theorem process_chunk_rest_finish (s0 : ClaudeStreamConverter) (jc choice : J)
    (reason : String)
    (hfin : (choice.get "finish_reason").bind J.as_str = some reason)
    (hfc : (choice.getD "delta").get "functionCall" = none)
    (hts : ¬((((choice.getD "delta").get "content").bind J.as_str).getD "" = "" ∧
        (((choice.getD "delta").get "thought").bind J.as_bool).getD false = false ∧
        (((choice.getD "delta").get "thoughtSignature").bind J.as_str).isSome = true)) :
    process_chunk_rest s0 jc choice =
      ((emit_finish (process_content_step s0
            ((((choice.getD "delta").get "content").bind J.as_str).getD "")
            ((((choice.getD "delta").get "thought").bind J.as_bool).getD false)
            (((choice.getD "delta").get "thoughtSignature").bind J.as_str)).1
          reason (jc.get "usage")).1,
        (process_content_step s0
            ((((choice.getD "delta").get "content").bind J.as_str).getD "")
            ((((choice.getD "delta").get "thought").bind J.as_bool).getD false)
            (((choice.getD "delta").get "thoughtSignature").bind J.as_str)).2 ++
          (emit_finish (process_content_step s0
              ((((choice.getD "delta").get "content").bind J.as_str).getD "")
              ((((choice.getD "delta").get "thought").bind J.as_bool).getD false)
              (((choice.getD "delta").get "thoughtSignature").bind J.as_str)).1
            reason (jc.get "usage")).2) := by
  simp only [process_chunk_rest, hfc, hfin]
  rw [if_neg hts]

theorem has_content_update_fields (s : ClaudeStreamConverter) (choice : J) :
    (has_content_update s choice).message_stop_sent = s.message_stop_sent ∧
    (has_content_update s choice).current_type = s.current_type ∧
    (has_content_update s choice).used_tool = s.used_tool ∧
    (has_content_update s choice).block_index = s.block_index ∧
    (has_content_update s choice).trailing_signature = s.trailing_signature := by
  simp only [has_content_update]
  split <;> exact ⟨rfl, rfl, rfl, rfl, rfl⟩

/-- On a well-formed chunk, process_chunk is process_chunk_rest after the
    has_content update. -/
theorem process_chunk_eq_rest (s : ClaudeStreamConverter) (c choice : J)
    (hcf : chunk_first_choice c = some choice) :
    process_chunk s c = process_chunk_rest (has_content_update s choice) c choice := by
  cases hch : (c.get "choices").bind J.as_array with
  | none => simp [chunk_first_choice, hch] at hcf
  | some arr =>
    cases arr with
    | nil => simp [chunk_first_choice, hch] at hcf
    | cons ch rest =>
      have hc : ch = choice := by simpa [chunk_first_choice, hch] using hcf
      subst hc
      simp only [process_chunk, hch]

/-- Complete description of processing a finish-carrying chunk without the two
    early-return shapes, at the process_chunk_rest level. -/
theorem process_chunk_rest_finish_full (s0 : ClaudeStreamConverter) (jc choice : J)
    (reason : String)
    (hfin : (choice.get "finish_reason").bind J.as_str = some reason)
    (hfc : (choice.getD "delta").get "functionCall" = none)
    (hts : ¬((((choice.getD "delta").get "content").bind J.as_str).getD "" = "" ∧
        (((choice.getD "delta").get "thought").bind J.as_bool).getD false = false ∧
        (((choice.getD "delta").get "thoughtSignature").bind J.as_str).isSome = true)) :
    (process_chunk_rest s0 jc choice).1.current_type = BlockType.none ∧
    (process_chunk_rest s0 jc choice).1.trailing_signature = none ∧
    ∃ pre used,
      (process_chunk_rest s0 jc choice).2 =
        pre ++ [StreamEvent.message_delta (finish_stop_reason used reason)
            (usage_output_tokens (jc.get "usage"))] ++
          (if s0.message_stop_sent = true then [] else [StreamEvent.message_stop]) ∧
      ∀ e ∈ pre, isBlockEvent e = true := by
  rw [process_chunk_rest_finish s0 jc choice reason hfin hfc hts]
  dsimp only
  refine ⟨emit_finish_current _ _ _, emit_finish_trailing _ _ _, ?_⟩
  refine ⟨(process_content_step s0
        ((((choice.getD "delta").get "content").bind J.as_str).getD "")
        ((((choice.getD "delta").get "thought").bind J.as_bool).getD false)
        (((choice.getD "delta").get "thoughtSignature").bind J.as_str)).2 ++
      ((end_block (process_content_step s0
            ((((choice.getD "delta").get "content").bind J.as_str).getD "")
            ((((choice.getD "delta").get "thought").bind J.as_bool).getD false)
            (((choice.getD "delta").get "thoughtSignature").bind J.as_str)).1).2 ++
        (emit_trailing_signature_block (end_block (process_content_step s0
            ((((choice.getD "delta").get "content").bind J.as_str).getD "")
            ((((choice.getD "delta").get "thought").bind J.as_bool).getD false)
            (((choice.getD "delta").get "thoughtSignature").bind J.as_str)).1).1).2),
    (process_content_step s0
        ((((choice.getD "delta").get "content").bind J.as_str).getD "")
        ((((choice.getD "delta").get "thought").bind J.as_bool).getD false)
        (((choice.getD "delta").get "thoughtSignature").bind J.as_str)).1.used_tool,
    ?_, ?_⟩
  · rw [emit_finish_events, process_content_step_mss]
    simp [List.append_assoc]
  · intro e he
    rcases List.mem_append.mp he with h | h
    · exact process_content_step_block_events _ _ _ _ e h
    · rcases List.mem_append.mp h with h | h
      · exact end_block_block_events _ e h
      · exact emit_trailing_block_events _ e h

theorem process_fc_mss (s : ClaudeStreamConverter) (fc : J) (sig : Option String) :
    (process_function_call s fc sig).1.message_stop_sent = s.message_stop_sent := by
  simp [process_function_call, end_block_mss]

theorem no_message_stop_of_block_events {l : List StreamEvent}
    (h : ∀ e ∈ l, isBlockEvent e = true) : StreamEvent.message_stop ∉ l := by
  intro hm
  simpa [isBlockEvent] using h _ hm

theorem emit_finish_no_message_stop (s : ClaudeStreamConverter) (r : String) (u : Option J)
    (h : s.message_stop_sent = true) :
    StreamEvent.message_stop ∉ (emit_finish s r u).2 := by
  rw [emit_finish_events, h]
  intro hm
  simp only [if_true, List.append_nil, List.mem_append] at hm
  rcases hm with (hm | hm) | hm
  · exact no_message_stop_of_block_events (end_block_block_events s) hm
  · exact no_message_stop_of_block_events (emit_trailing_block_events _) hm
  · simp at hm

theorem process_chunk_rest_no_message_stop (s0 : ClaudeStreamConverter) (jc choice : J)
    (h : s0.message_stop_sent = true) :
    (process_chunk_rest s0 jc choice).1.message_stop_sent = true ∧
    StreamEvent.message_stop ∉ (process_chunk_rest s0 jc choice).2 := by
  simp only [process_chunk_rest]
  split
  · constructor
    · rw [process_fc_mss, emit_trailing_mss]; exact h
    · intro hm
      rcases List.mem_append.mp hm with hm | hm
      · exact no_message_stop_of_block_events (emit_trailing_block_events _) hm
      · exact no_message_stop_of_block_events (process_fc_block_events _ _ _) hm
  · split
    · exact ⟨h, by simp⟩
    · split
      · dsimp only
        constructor
        · refine emit_finish_mss_true _ _ _ ?_
          rw [process_content_step_mss]; exact h
        · intro hm
          rcases List.mem_append.mp hm with hm | hm
          · exact no_message_stop_of_block_events
              (process_content_step_block_events _ _ _ _) hm
          · refine emit_finish_no_message_stop _ _ _ ?_ hm
            rw [process_content_step_mss]; exact h
      · constructor
        · rw [process_content_step_mss]; exact h
        · exact no_message_stop_of_block_events (process_content_step_block_events _ _ _ _)

theorem process_chunk_no_message_stop (s : ClaudeStreamConverter) (c : J)
    (h : s.message_stop_sent = true) :
    (process_chunk s c).1.message_stop_sent = true ∧
    StreamEvent.message_stop ∉ (process_chunk s c).2 := by
  cases hch : (c.get "choices").bind J.as_array with
  | none => simpa [process_chunk, hch] using h
  | some arr =>
    cases arr with
    | nil => simpa [process_chunk, hch] using h
    | cons choice rest =>
      simp only [process_chunk, hch]
      refine process_chunk_rest_no_message_stop _ c choice ?_
      rw [(has_content_update_fields s choice).1]; exact h

theorem process_chunk_finish (s : ClaudeStreamConverter) (c : J) (reason : String)
    (hfin : chunk_finish_reason c = some reason)
    (hfc : chunk_has_function_call c = false)
    (hts : chunk_trailing_shape c = false) :
    (process_chunk s c).1.current_type = BlockType.none ∧
    (process_chunk s c).1.trailing_signature = none ∧
    ∃ pre used,
      (process_chunk s c).2 =
        pre ++ [StreamEvent.message_delta (finish_stop_reason used reason)
            (chunk_output_tokens c)] ++
          (if s.message_stop_sent = true then [] else [StreamEvent.message_stop]) ∧
      ∀ e ∈ pre, isBlockEvent e = true := by
  obtain ⟨choice, hcf⟩ : ∃ ch, chunk_first_choice c = some ch := by
    cases hq : chunk_first_choice c with
    | none => rw [chunk_finish_reason, hq] at hfin; simp at hfin
    | some ch => exact ⟨ch, rfl⟩
  have hfin' : (choice.get "finish_reason").bind J.as_str = some reason := by
    rw [chunk_finish_reason, hcf] at hfin; simpa using hfin
  have hfc' : (choice.getD "delta").get "functionCall" = none := by
    cases ho : (choice.getD "delta").get "functionCall" with
    | none => rfl
    | some v => rw [chunk_has_function_call, hcf] at hfc; simp [ho] at hfc
  have hts' : ¬((((choice.getD "delta").get "content").bind J.as_str).getD "" = "" ∧
      (((choice.getD "delta").get "thought").bind J.as_bool).getD false = false ∧
      (((choice.getD "delta").get "thoughtSignature").bind J.as_str).isSome = true) := by
    rw [chunk_trailing_shape, hcf] at hts
    simpa using hts
  rw [process_chunk_eq_rest s c choice hcf]
  have h := process_chunk_rest_finish_full (has_content_update s choice) c choice reason
    hfin' hfc' hts'
  rw [(has_content_update_fields s choice).1] at h
  simpa [chunk_output_tokens] using h

theorem scan_process_all (chunks : List J) :
    scanEvents ⟨false, 0⟩ (process_all chunks).2 = some (scanOf (process_all chunks).1) := by
  suffices H : ∀ (l : List J) (init : ClaudeStreamConverter × List StreamEvent),
      scanEvents ⟨false, 0⟩ init.2 = some (scanOf init.1) →
      scanEvents ⟨false, 0⟩ ((l.foldl (fun acc c =>
          let r := process_chunk acc.1 c
          (r.1, acc.2 ++ r.2)) init).2) =
        some (scanOf ((l.foldl (fun acc c =>
          let r := process_chunk acc.1 c
          (r.1, acc.2 ++ r.2)) init).1)) by
    exact H chunks (ClaudeStreamConverter.new, []) rfl
  intro l
  induction l with
  | nil => exact fun init h => h
  | cons c rest ih =>
    intro init h
    exact ih _ (scanEvents_append_some h (scan_process_chunk init.1 c))

/- ===== Concrete chunks used by scenarios, witnesses and counterexamples ===== -/

/-- S1 thinking chunk: delta with content "reasoning", thought true,
    thoughtSignature "sig1". -/
def thinking_chunk_s1 : J :=
  J.obj [("choices", J.arr [J.obj [("delta", J.obj
    [("content", .jstr "reasoning"), ("thought", .jbool true),
     ("thoughtSignature", .jstr "sig1")])]])]

/-- S1 finish chunk: empty delta, finish_reason "stop",
    usage.completion_tokens 42. -/
def finish_chunk_s1 : J :=
  J.obj [("choices", J.arr [J.obj [("delta", J.obj []),
    ("finish_reason", .jstr "stop")]]),
    ("usage", J.obj [("completion_tokens", .jnum 42)])]

/-- A chunk whose delta carries a functionCall and which also carries a
    finish_reason, with usage present. -/
def fc_finish_chunk : J :=
  J.obj [("choices", J.arr [J.obj
    [("delta", J.obj [("functionCall", J.obj [("name", .jstr "f"),
        ("args", J.obj []), ("id", .jstr "c1")])]),
     ("finish_reason", .jstr "stop")]]),
    ("usage", J.obj [("completion_tokens", .jnum 7)])]

/-- A plain text chunk carrying "hi". -/
def text_chunk_hi : J :=
  J.obj [("choices", J.arr [J.obj [("delta", J.obj [("content", .jstr "hi")])]])]

/-- The converter state after processing a lone finish chunk (terminal state:
    current_type none, message_stop_sent true). -/
def terminal_state_example : ClaudeStreamConverter := (process_all [finish_chunk_s1]).1

/-- The stop_reason field of a message_delta event, none for other events. -/
def stop_reason_of : StreamEvent → Option String
  | .message_delta sr _ => some sr
  | _ => none

/- ===== Claim theorems: stream converter ===== -/

/-- C1 (counterexample): a single well-formed chunk that carries both a
    functionCall and a finish_reason ends the sequence, yet the emitted events
    are not balanced: the tool_use content_block_start at index 0 never gets a
    content_block_stop, because process_chunk returns before the finish_reason
    is examined. -/
theorem C1_counterexample :
    chunk_well_formed fc_finish_chunk = true ∧
    chunk_finish_reason fc_finish_chunk = some "stop" ∧
    (process_all [fc_finish_chunk]).2 =
      [StreamEvent.content_block_start 0 (.toolUse "c1" "f" none),
       StreamEvent.content_block_delta 0 (.inputJsonDelta "\x7b\x7d")] ∧
    balanced (process_all [fc_finish_chunk]).2 = false := by decide

/-- C1 (amended): for every sequence of chunks whose final chunk carries a
    finish_reason and is not one of the two early-return shapes (functionCall
    present, or empty text with thoughtSignature and thought not true), the
    concatenated events emitted by a fresh converter are balanced: every
    content_block_start is matched by one later content_block_stop with the
    same index, no block opens while another is open, every
    content_block_delta lies inside the matching pair, and block indices start
    at 0 and increase by exactly 1. -/
theorem C1_balance (front : List J) (last : J) (reason : String)
    (hfin : chunk_finish_reason last = some reason)
    (hfc : chunk_has_function_call last = false)
    (hts : chunk_trailing_shape last = false) :
    balanced (process_all (front ++ [last])).2 = true := by
  have hfold : process_all (front ++ [last]) =
      ((process_chunk (process_all front).1 last).1,
       (process_all front).2 ++ (process_chunk (process_all front).1 last).2) := by
    simp [process_all, List.foldl_append]
  obtain ⟨hcur, -, -⟩ := process_chunk_finish (process_all front).1 last reason hfin hfc hts
  have hscan := scanEvents_append_some (scan_process_all front)
    (scan_process_chunk (process_all front).1 last)
  rw [hfold]
  unfold balanced
  dsimp only
  rw [hscan]
  simp [scanOf, hcur]

/-- C1 witness: the amended theorem applied to the concrete S1 stream. -/
theorem C1_balance_witness :
    chunk_finish_reason finish_chunk_s1 = some "stop" ∧
    chunk_has_function_call finish_chunk_s1 = false ∧
    chunk_trailing_shape finish_chunk_s1 = false ∧
    balanced (process_all ([thinking_chunk_s1] ++ [finish_chunk_s1])).2 = true :=
  ⟨by decide, by decide, by decide,
   C1_balance [thinking_chunk_s1] finish_chunk_s1 "stop" (by decide) (by decide) (by decide)⟩

/-- C2 (counterexample): after a finish chunk the converter is in the terminal
    state (current_type none, message_stop_sent true), yet a further chunk
    carrying text emits a non-empty event list (a new text block is opened), so
    the claim that any further chunk yields an empty event list is false. -/
theorem C2_counterexample :
    terminal_state_example.current_type = BlockType.none ∧
    terminal_state_example.message_stop_sent = true ∧
    (process_chunk terminal_state_example text_chunk_hi).2 =
      [StreamEvent.content_block_start 0 .text,
       StreamEvent.content_block_delta 0 (.textDelta "hi")] := by decide

/-- C2 (amended): once message_stop has been sent, the flag stays set and no
    later chunk ever emits another message_stop event; chunks carrying content
    may however still emit block events. -/
theorem C2_no_message_stop_after_terminal (s : ClaudeStreamConverter) (c : J)
    (h : s.message_stop_sent = true) :
    (process_chunk s c).1.message_stop_sent = true ∧
    StreamEvent.message_stop ∉ (process_chunk s c).2 :=
  process_chunk_no_message_stop s c h

/-- C2 witness: the amended theorem applied after the concrete finish chunk. -/
theorem C2_witness :
    terminal_state_example.message_stop_sent = true ∧
    ((process_chunk terminal_state_example text_chunk_hi).1.message_stop_sent = true ∧
      StreamEvent.message_stop ∉ (process_chunk terminal_state_example text_chunk_hi).2) :=
  ⟨by decide, C2_no_message_stop_after_terminal terminal_state_example text_chunk_hi (by decide)⟩

/-- C3 (counterexample): a chunk carrying both a functionCall and
    finish_reason "stop" is fed to a fresh converter; process_chunk returns
    early, so no message_delta and no message_stop is emitted in that call and
    the tool_use block stays open — the finish transition is not performed. -/
theorem C3_counterexample :
    chunk_finish_reason fc_finish_chunk = some "stop" ∧
    chunk_has_function_call fc_finish_chunk = true ∧
    (process_all [fc_finish_chunk]).2.filterMap stop_reason_of = [] ∧
    StreamEvent.message_stop ∉ (process_all [fc_finish_chunk]).2 ∧
    (process_all [fc_finish_chunk]).1.current_type = BlockType.toolUse := by decide

/-- C3 (amended): for every chunk whose choice carries a finish_reason and
    whose delta carries no functionCall and is not the empty-text-with-
    signature shape, process_chunk performs the finish transition in the same
    call: it leaves no block open, drains trailingSignature, emits exactly one
    message_delta whose output_tokens come from usage.completion_tokens or
    usage.output_tokens (default 0) after all block events, and then emits
    message_stop (unless message_stop had already been sent). -/
theorem C3_finish_same_call (s : ClaudeStreamConverter) (c : J) (reason : String)
    (hfin : chunk_finish_reason c = some reason)
    (hfc : chunk_has_function_call c = false)
    (hts : chunk_trailing_shape c = false) :
    (process_chunk s c).1.current_type = BlockType.none ∧
    (process_chunk s c).1.trailing_signature = none ∧
    ∃ pre used,
      (process_chunk s c).2 =
        pre ++ [StreamEvent.message_delta (finish_stop_reason used reason)
            (chunk_output_tokens c)] ++
          (if s.message_stop_sent = true then [] else [StreamEvent.message_stop]) ∧
      ∀ e ∈ pre, isBlockEvent e = true :=
  process_chunk_finish s c reason hfin hfc hts

/-- C3 witness: the amended theorem applied to the S1 finish chunk on a fresh
    converter. -/
theorem C3_witness :
    chunk_finish_reason finish_chunk_s1 = some "stop" ∧
    chunk_has_function_call finish_chunk_s1 = false ∧
    chunk_trailing_shape finish_chunk_s1 = false ∧
    ((process_chunk ClaudeStreamConverter.new finish_chunk_s1).1.current_type =
        BlockType.none ∧
      (process_chunk ClaudeStreamConverter.new finish_chunk_s1).1.trailing_signature =
        none ∧
      ∃ pre used,
        (process_chunk ClaudeStreamConverter.new finish_chunk_s1).2 =
          pre ++ [StreamEvent.message_delta (finish_stop_reason used "stop")
              (chunk_output_tokens finish_chunk_s1)] ++
            (if ClaudeStreamConverter.new.message_stop_sent = true then []
             else [StreamEvent.message_stop]) ∧
        ∀ e ∈ pre, isBlockEvent e = true) :=
  ⟨by decide, by decide, by decide,
   C3_finish_same_call ClaudeStreamConverter.new finish_chunk_s1 "stop"
     (by decide) (by decide) (by decide)⟩

/-- C4: for every converter state, finish_reason string and usage value, the
    message_delta emitted by emit_finish carries stop_reason "tool_use"
    whenever used_tool is set, and otherwise "max_tokens" for "length" /
    "MAX_TOKENS", "end_turn" for "stop" / "STOP", "tool_use" for "tool_calls" /
    "function_call", and "end_turn" for anything else; exactly one
    message_delta is emitted. -/
theorem C4_stop_reason_mapping (s : ClaudeStreamConverter) (r : String) (u : Option J) :
    (emit_finish s r u).2.filterMap stop_reason_of =
      [if s.used_tool = true then "tool_use"
       else if r = "length" ∨ r = "MAX_TOKENS" then "max_tokens"
       else if r = "stop" ∨ r = "STOP" then "end_turn"
       else if r = "tool_calls" ∨ r = "function_call" then "tool_use"
       else "end_turn"] := by
  rw [emit_finish_events]
  have hnil : ∀ (l : List StreamEvent), (∀ e ∈ l, isBlockEvent e = true) →
      l.filterMap stop_reason_of = [] := by
    intro l hl
    rw [List.filterMap_eq_nil_iff]
    intro e he
    have := hl e he
    cases e <;> simp_all [isBlockEvent, stop_reason_of]
  rw [List.filterMap_append, List.filterMap_append, List.filterMap_append]
  rw [hnil _ (end_block_block_events s), hnil _ (emit_trailing_block_events _)]
  by_cases hm : s.message_stop_sent = true <;>
    simp [hm, stop_reason_of, finish_stop_reason]

/-- C5: the S1 scenario.  One thinking chunk with content "reasoning",
    thought true and thoughtSignature "sig1", followed by a finish chunk with
    finish_reason "stop" and usage.completion_tokens 42, produces exactly:
    content_block_start(thinking, 0), thinking_delta "reasoning",
    signature_delta "sig1" (before the stop), content_block_stop(0),
    message_delta(end_turn, 42), message_stop. -/
theorem C5_scenario_s1 :
    (process_all [thinking_chunk_s1, finish_chunk_s1]).2 =
      [StreamEvent.content_block_start 0 .thinking,
       StreamEvent.content_block_delta 0 (.thinkingDelta "reasoning"),
       StreamEvent.content_block_delta 0 (.signatureDelta "sig1"),
       StreamEvent.content_block_stop 0,
       StreamEvent.message_delta "end_turn" 42,
       StreamEvent.message_stop] := by decide

/-- C6: process_chunk is total by construction, and on every malformed chunk
    (choices key missing, choices not an array, or an empty choices array —
    exactly the chunks with no first choice) it returns the empty event list
    and the state completely unchanged. -/
theorem C6_malformed_skipped (s : ClaudeStreamConverter) (c : J)
    (h : chunk_well_formed c = false) :
    process_chunk s c = (s, []) := by
  cases hch : (c.get "choices").bind J.as_array with
  | none => simp [process_chunk, hch]
  | some arr =>
    cases arr with
    | nil => simp [process_chunk, hch]
    | cons ch rest => simp [chunk_well_formed, chunk_first_choice, hch] at h

/-- C6 witness: an empty object (no choices key) is skipped without any state
    change. -/
theorem C6_witness :
    chunk_well_formed (J.obj []) = false ∧
    process_chunk ClaudeStreamConverter.new (J.obj []) =
      (ClaudeStreamConverter.new, []) :=
  ⟨by decide, C6_malformed_skipped ClaudeStreamConverter.new (J.obj []) (by decide)⟩

/- ===== Retry policy (retry_handler.rs) ===== -/

inductive RetryAction where
  | WaitAndRetry (ms : Nat)
  | RotateAccount
  | NoRetry
deriving DecidableEq, Repr

/-- Duration units accepted by the regex ([\d.]+)\s*(ms|s|m|h). -/
inductive DurUnit where
  | ms
  | s
  | m
  | h
deriving DecidableEq, Repr

def isRunChar (c : Char) : Bool := c.isDigit || c = '.'

def isWsChar (c : Char) : Bool := c.isWhitespace

/-- The ordered alternation (ms|s|m|h) at the head of the input. -/
def unit_at : List Char → Option (DurUnit × List Char)
  | 'm' :: 's' :: rest => some (.ms, rest)
  | 's' :: rest => some (.s, rest)
  | 'm' :: rest => some (.m, rest)
  | 'h' :: rest => some (.h, rest)
  | _ => none

/-- All matches of ([\d.]+)\s*(ms|s|m|h) in order (regex captures_iter).  A
    candidate number-run whose following text is no unit cannot match at any
    later start inside the run either, so the scan resumes after it.  The fuel
    argument (the remaining input length suffices) only discharges
    termination. -/
def scan_captures : Nat → List Char → List (List Char × DurUnit)
  | 0, _ => []
  | _ + 1, [] => []
  | fuel + 1, c :: rest =>
    if isRunChar c then
      let run := c :: rest.takeWhile isRunChar
      let after := rest.dropWhile isRunChar
      match unit_at (after.dropWhile isWsChar) with
      | some (u, rest2) => (run, u) :: scan_captures fuel rest2
      | none => scan_captures fuel after
    else
      scan_captures fuel rest

def digits_to_nat (l : List Char) : Nat :=
  l.foldl (fun acc c => acc * 10 + (c.toNat - 48)) 0

/-- f64::parse on a [0-9.]+ run: it succeeds iff the run has at most one dot
    and at least one digit.  The value is represented exactly as a
    numerator/denominator pair of naturals (the parsed decimals are exact in
    this range, so this agrees with the f64 the source computes). -/
def parse_number (run : List Char) : Option (Nat × Nat) :=
  if run.count '.' > 1 then none
  else if run.all (fun c => c = '.') then none
  else
    let intPart := run.takeWhile (fun c => c ≠ '.')
    let frac := (run.dropWhile (fun c => c ≠ '.')).drop 1
    some (digits_to_nat intPart * 10 ^ frac.length + digits_to_nat frac, 10 ^ frac.length)

/-- Milliseconds per unit. -/
def unit_ms : DurUnit → Nat
  | .ms => 1
  | .s => 1000
  | .m => 60000
  | .h => 3600000

/-- Round-half-up of a non-negative fraction, as f64::round (ties away from
    zero on a non-negative argument) followed by `as u64`. -/
def round_frac_to_nat (num den : Nat) : Nat := (2 * num + den) / (2 * den)

/-- RetryDelayParser::parse_duration_ms.  The f64 accumulator is modelled as
    an exact non-negative fraction, summed without normalisation. -/
def parse_duration_ms (duration_str : String) : Option Nat :=
  let chars := duration_str.data
  let trimmed := ((chars.dropWhile isWsChar).reverse.dropWhile isWsChar).reverse
  if trimmed.isEmpty then none
  else
    let caps := scan_captures trimmed.length trimmed
    if caps.isEmpty then none
    else
      let total : Nat × Nat := caps.foldl (fun acc cap =>
        match parse_number cap.1 with
        | some v => (acc.1 * v.2 + v.1 * unit_ms cap.2 * acc.2, acc.2 * v.2)
        | none => acc) (0, 1)
      some (round_frac_to_nat total.1 total.2)

/-- Substring test (str::contains with a literal pattern). -/
def contains_sublist : List Char → List Char → Bool
  | needle, [] => needle.isEmpty
  | needle, h :: t => needle.isPrefixOf (h :: t) || contains_sublist needle t

def JArr.findSome? : JArr → (J → Option Nat) → Option Nat
  | .nil, _ => none
  | .cons x tl, f =>
    match f x with
    | some r => some r
    | none => tl.findSome? f

/-- RetryDelayParser::parse_retry_delay_ms.  The body is given already parsed:
    none models serde_json::from_str failing on the error text. -/
def parse_retry_delay_ms (err_obj : Option J) : Option Nat :=
  match err_obj with
  | none => none
  | some v =>
    match ((v.get "error").bind (fun e => e.get "details")).bind J.as_array with
    | none => none
    | some details =>
      let first := details.findSome? (fun d =>
        let type_field := ((d.get "@type").bind J.as_str).getD ""
        if contains_sublist "RetryInfo".data type_field.data then
          ((d.get "retryDelay").bind J.as_str).bind parse_duration_ms
        else none)
      match first with
      | some ms => some ms
      | none =>
        details.findSome? (fun d =>
          (((d.get "metadata").bind (fun m => m.get "quotaResetDelay")).bind
            J.as_str).bind parse_duration_ms)

/-- RetryDelayParser::decide_retry_action. -/
def decide_retry_action (status : Nat) (error_text : Option J) : RetryAction :=
  if status = 429 then
    match parse_retry_delay_ms error_text with
    | some delay_ms =>
      if delay_ms ≤ 5000 then .WaitAndRetry (delay_ms + 200) else .RotateAccount
    | none => .RotateAccount
  else if status = 404 ∨ status = 403 then .RotateAccount
  else .NoRetry

example : parse_duration_ms "1.5s" = some 1500 := by decide
example : parse_duration_ms "1h16m0.667923083s" = some 4560668 := by decide
example : parse_duration_ms "" = none := by decide
example : parse_duration_ms "331.167174ms" = some 331 := by decide
example : parse_duration_ms "10s" = some 10000 := by decide

/-- The S5 429 body: error.details with a RetryInfo detail whose retryDelay is
    "1.5s". -/
def retry_body_s5 : J :=
  J.obj [("error", J.obj [("details", J.arr [J.obj
    [("@type", .jstr "type.googleapis.com/google.rpc.RetryInfo"),
     ("retryDelay", .jstr "1.5s")]])])]

/-- C9: the retry decision.  For every parsed body, decide_retry_action at
    status 429 returns WaitAndRetry(d+200) exactly when parse_retry_delay_ms
    (which searches RetryInfo.retryDelay first, then metadata.quotaResetDelay,
    summing <num>[ms|s|m|h] runs into milliseconds) yields d with d ≤ 5000,
    and RotateAccount otherwise; statuses 403 and 404 always rotate; every
    other status does not retry. -/
theorem C9_retry_policy (status : Nat) (body : Option J) :
    (∀ d : Nat, decide_retry_action 429 body = .WaitAndRetry (d + 200) ↔
      (parse_retry_delay_ms body = some d ∧ d ≤ 5000)) ∧
    (status = 403 ∨ status = 404 → decide_retry_action status body = .RotateAccount) ∧
    (status ≠ 429 ∧ status ≠ 403 ∧ status ≠ 404 →
      decide_retry_action status body = .NoRetry) ∧
    (decide_retry_action 429 body = .RotateAccount ↔
      ∀ d, parse_retry_delay_ms body = some d → ¬ d ≤ 5000) := by
  refine ⟨?_, ?_, ?_, ?_⟩
  · intro d
    constructor
    · intro h
      cases hp : parse_retry_delay_ms body with
      | none => simp [decide_retry_action, hp] at h
      | some d' =>
        by_cases hle : d' ≤ 5000
        · simp only [decide_retry_action, hp, hle, if_true, reduceIte] at h
          have : d' = d := by
            have := h
            simp only [RetryAction.WaitAndRetry.injEq] at this
            omega
          exact ⟨congrArg some this, by omega⟩
        · simp [decide_retry_action, hp, hle] at h
    · rintro ⟨hp, hle⟩
      simp [decide_retry_action, hp, hle]
  · rintro (h | h) <;> subst h <;> rfl
  · rintro ⟨h1, h2, h3⟩
    simp [decide_retry_action, h1, h2, h3]
  · cases hp : parse_retry_delay_ms body with
    | none => simp [decide_retry_action, hp]
    | some d' =>
      by_cases hle : d' ≤ 5000
      · simp only [decide_retry_action, hp, hle, reduceIte, if_true]
        constructor
        · intro h; exact absurd h (by simp)
        · intro h; exact absurd hle (h d' rfl)
      · simp only [decide_retry_action, hp, hle, reduceIte, if_false]
        constructor
        · intro _ d hd
          cases hd
          exact hle
        · intro _
          trivial

/-- C9 witness: the S5 scenario.  retryDelay "1.5s" parses to 1500 ms, so a
    429 yields WaitAndRetry 1700; 403 rotates; 500 does not retry. -/
theorem C9_witness :
    decide_retry_action 429 (some retry_body_s5) = .WaitAndRetry 1700 ∧
    decide_retry_action 403 (some retry_body_s5) = .RotateAccount ∧
    decide_retry_action 500 (some retry_body_s5) = .NoRetry :=
  ⟨((C9_retry_policy 429 (some retry_body_s5)).1 1500).mpr ⟨by decide, by decide⟩,
   (C9_retry_policy 403 (some retry_body_s5)).2.1 (Or.inl rfl),
   (C9_retry_policy 500 (some retry_body_s5)).2.2.1 ⟨by decide, by decide, by decide⟩⟩

/- ===== Request translation (converter.rs): data model ===== -/

structure GeminiInlineData where
  mime_type : String
  data : String
deriving DecidableEq, Repr

structure FunctionCall where
  name : String
  args : Option J
  id : Option String

structure FunctionResponse where
  name : String
  response : J
  id : Option String

structure GeminiPart where
  text : Option String
  inline_data : Option GeminiInlineData
  thought_signature : Option String
  thought : Option Bool
  function_call : Option FunctionCall
  function_response : Option FunctionResponse

structure GeminiContent where
  role : String
  parts : List GeminiPart

/-- GeminiPart::text (named text_part: the Lean field projection occupies the
    source name). -/
def GeminiPart.text_part (text : String) : GeminiPart :=
  ⟨some text, none, none, none, none, none⟩

/-- GeminiPart::image. -/
def GeminiPart.image (inline_data : GeminiInlineData) : GeminiPart :=
  ⟨none, some inline_data, none, none, none, none⟩

/-- GeminiPart::signature_only. -/
def GeminiPart.signature_only (signature : String) : GeminiPart :=
  ⟨none, none, some signature, none, none, none⟩

/-- Anthropic content blocks (converter.rs AnthropicContent). -/
inductive AnthropicContent where
  | Text (text : String)
  | Thinking (thinking : String) (signature : Option String)
  | Image (source_type media_type data : String)
  | ToolUse (id name : String) (input : J) (signature : Option String)
  | ToolResult (tool_use_id : String) (content_text : String) (is_error : Option Bool)

structure AnthropicMessage where
  role : String
  content : List AnthropicContent
  thought_signature : Option String

structure AnthropicChatRequest where
  model : String
  messages : List AnthropicMessage

/- ===== convert_anthropic_to_gemini_contents_ext (converter.rs 665-733) ===== -/

/-- Per-block translation of the ext converter's message loop (lines 681-703):
    text and base64 images become parts; thinking, tool_use and tool_result
    blocks are ignored here. -/
def translate_block_ext : AnthropicContent → List GeminiPart
  | .Text text => [GeminiPart.text_part text]
  | .Image source_type media_type data =>
    if source_type = "base64" then [GeminiPart.image ⟨media_type, data⟩] else []
  | .Thinking _ _ => []
  | .ToolUse _ _ _ _ => []
  | .ToolResult _ _ _ => []

/-- Role mapping of the ext converter (lines 673-677). -/
def anthropic_role (r : String) : String :=
  if r = "assistant" then "model"
  else if r = "user" then "user"
  else "user"

/-- One message of the ext converter's loop: translated blocks, plus — for
    every model-role message — the cached "latest" signature appended as a
    signature-only part when present (lines 705-712). -/
def translate_msg_ext (m : List (String × String)) (msg : AnthropicMessage) :
    GeminiContent :=
  let role := anthropic_role msg.role
  let parts := (msg.content.map translate_block_ext).flatten
  let parts :=
    if role = "model" then
      match m.lookup "latest" with
      | some s => parts ++ [GeminiPart.signature_only s]
      | none => parts
    else parts
  ⟨role, parts⟩

/-- The merge loop of the ext converter (lines 721-730): while scanning left
    to right, adjacent entries with equal roles are merged by concatenating
    their parts (no separator).  The fuel argument (the list length suffices)
    only discharges termination of the in-place loop. -/
def merge_same_role_loop : Nat → List GeminiContent → List GeminiContent
  | 0, l => l
  | _ + 1, [] => []
  | _ + 1, [c] => [c]
  | fuel + 1, c1 :: c2 :: rest =>
    if c1.role = c2.role then
      merge_same_role_loop fuel ({ role := c1.role, parts := c1.parts ++ c2.parts } :: rest)
    else
      c1 :: merge_same_role_loop fuel (c2 :: rest)

def merge_same_role (l : List GeminiContent) : List GeminiContent :=
  merge_same_role_loop l.length l

/-- convert_anthropic_to_gemini_contents_ext: translate each message, then
    merge adjacent same-role entries.  The signature map is the ext
    converter's signature_map contents. -/
def convert_anthropic_to_gemini_contents_ext (request : AnthropicChatRequest)
    (m : List (String × String)) : List GeminiContent :=
  merge_same_role (request.messages.map (translate_msg_ext m))

/- ===== The user-merge loop of convert_openai_to_gemini_contents
   (converter.rs 566-591): merges only adjacent user entries, inserting a
   "\n\n" text part when both boundary parts carry text. ===== -/

def merge_user_loop : Nat → List GeminiContent → List GeminiContent
  | 0, l => l
  | _ + 1, [] => []
  | _ + 1, [c] => [c]
  | fuel + 1, c1 :: c2 :: rest =>
    if c2.role = "user" ∧ c1.role = "user" then
      let need_separator :=
        match c1.parts.getLast?, c2.parts.head? with
        | some last_part, some first_part =>
          last_part.text.isSome && first_part.text.isSome
        | _, _ => false
      let merged :=
        if need_separator then c1.parts ++ [GeminiPart.text_part "\n\n"] ++ c2.parts
        else c1.parts ++ c2.parts
      merge_user_loop fuel ({ role := c1.role, parts := merged } :: rest)
    else
      c1 :: merge_user_loop fuel (c2 :: rest)

def merge_user_messages (l : List GeminiContent) : List GeminiContent :=
  merge_user_loop l.length l

theorem merge_loop_head_role (fuel : Nat) (c : GeminiContent)
    (rest : List GeminiContent) :
    ∃ parts tl, merge_same_role_loop fuel (c :: rest) =
      GeminiContent.mk c.role parts :: tl := by
  induction fuel generalizing c rest with
  | zero => exact ⟨c.parts, rest, rfl⟩
  | succ fuel ih =>
    cases rest with
    | nil => exact ⟨c.parts, [], rfl⟩
    | cons c2 rest2 =>
      by_cases hr : c.role = c2.role
      · obtain ⟨p, t, hp⟩ := ih ⟨c.role, c.parts ++ c2.parts⟩ rest2
        refine ⟨p, t, ?_⟩
        simpa [merge_same_role_loop, hr] using hp
      · exact ⟨c.parts, merge_same_role_loop fuel (c2 :: rest2),
          by simp [merge_same_role_loop, hr]⟩

theorem merge_loop_chain (fuel : Nat) (l : List GeminiContent)
    (h : l.length ≤ fuel) :
    List.Chain' (fun a b => a.role ≠ b.role) (merge_same_role_loop fuel l) := by
  induction fuel generalizing l with
  | zero =>
    have : l = [] := List.length_eq_zero.mp (Nat.le_zero.mp h)
    subst this
    simp [merge_same_role_loop]
  | succ fuel ih =>
    cases l with
    | nil => simp [merge_same_role_loop]
    | cons c1 rest =>
      cases rest with
      | nil => simp [merge_same_role_loop]
      | cons c2 rest2 =>
        by_cases hr : c1.role = c2.role
        · simp only [merge_same_role_loop, hr, if_pos]
          exact ih _ (by simpa using Nat.le_of_succ_le_succ h)
        · simp only [merge_same_role_loop, hr, if_neg, not_false_iff]
          obtain ⟨p, t, hp⟩ := merge_loop_head_role fuel c2 rest2
          rw [hp]
          refine List.Chain'.cons ?_ ?_
          · simpa using hr
          · rw [← hp]
            exact ih _ (by simpa using Nat.le_of_succ_le_succ h)

theorem merge_loop_flatten (fuel : Nat) (l : List GeminiContent) :
    ((merge_same_role_loop fuel l).map GeminiContent.parts).flatten =
      (l.map GeminiContent.parts).flatten := by
  induction fuel generalizing l with
  | zero => rfl
  | succ fuel ih =>
    cases l with
    | nil => rfl
    | cons c1 rest =>
      cases rest with
      | nil => rfl
      | cons c2 rest2 =>
        by_cases hr : c1.role = c2.role
        · simp only [merge_same_role_loop, hr, if_pos]
          rw [ih]
          simp [List.append_assoc]
        · simp only [merge_same_role_loop, hr, if_neg, not_false_iff, List.map_cons,
            List.flatten_cons]
          rw [ih]
          simp

/-- The request exhibiting the missing separator: two user messages each with
    one text block. -/
def two_user_request : AnthropicChatRequest :=
  ⟨"m", [⟨"user", [.Text "a"], none⟩, ⟨"user", [.Text "b"], none⟩]⟩

/-- C7 (counterexample): the Anthropic-ext converter merges the two user
    messages by plain concatenation — the result has exactly the two text
    parts "a" and "b" and no "\n\n" separator part between them, contrary to
    the claim. -/
theorem C7_counterexample :
    convert_anthropic_to_gemini_contents_ext two_user_request [] =
      [⟨"user", [GeminiPart.text_part "a", GeminiPart.text_part "b"]⟩] := rfl

/-- C7 (amended): after the merge pass of
    convert_anthropic_to_gemini_contents_ext no two adjacent entries share a
    role and merging concatenates the entries' parts in order, but no
    separator is ever inserted on this path; the "\n\n" separator for
    user+user merges with text boundary parts exists only in
    convert_openai_to_gemini_contents' merge loop (third conjunct). -/
theorem C7_merge_pass (request : AnthropicChatRequest) (m : List (String × String)) :
    List.Chain' (fun a b => a.role ≠ b.role)
      (convert_anthropic_to_gemini_contents_ext request m) ∧
    ((convert_anthropic_to_gemini_contents_ext request m).map
        GeminiContent.parts).flatten =
      ((request.messages.map (translate_msg_ext m)).map GeminiContent.parts).flatten ∧
    merge_user_messages
        [⟨"user", [GeminiPart.text_part "a"]⟩, ⟨"user", [GeminiPart.text_part "b"]⟩] =
      [⟨"user", [GeminiPart.text_part "a", GeminiPart.text_part "\n\n",
        GeminiPart.text_part "b"]⟩] :=
  ⟨merge_loop_chain _ _ le_rfl, merge_loop_flatten _ _, rfl⟩

/-- C10: in convert_anthropic_to_gemini_contents_ext, whenever the signature
    map has key "latest", every message whose role maps to model gets the
    cached signature appended as a final signature-only part — every assistant
    turn, not only the most recent — and when the key is absent no message of
    the request gains a signature-only part. -/
theorem C10_signature_replay (request : AnthropicChatRequest)
    (m : List (String × String)) :
    (∀ s, m.lookup "latest" = some s →
      ∀ msg ∈ request.messages, anthropic_role msg.role = "model" →
        (translate_msg_ext m msg).parts =
          (msg.content.map translate_block_ext).flatten ++
            [GeminiPart.signature_only s]) ∧
    (m.lookup "latest" = none →
      ∀ msg ∈ request.messages, ∀ p ∈ (translate_msg_ext m msg).parts,
        ∀ s, p ≠ GeminiPart.signature_only s) := by
  constructor
  · intro s hs msg _ hrole
    simp [translate_msg_ext, hrole, hs]
  · intro hn msg _ p hp s
    have hparts : p ∈ (msg.content.map translate_block_ext).flatten := by
      by_cases hrole : anthropic_role msg.role = "model"
      · simpa [translate_msg_ext, hrole, hn] using hp
      · simpa [translate_msg_ext, hrole] using hp
    obtain ⟨l, hl, hpl⟩ := List.mem_flatten.mp hparts
    obtain ⟨blk, _, hblk⟩ := List.mem_map.mp hl
    subst hblk
    cases blk with
    | Text t => simp only [translate_block_ext, List.mem_singleton] at hpl; subst hpl; intro h; cases h
    | Thinking a b => simp [translate_block_ext] at hpl
    | Image st mt d =>
      by_cases hb : st = "base64"
      · simp only [translate_block_ext, hb, if_pos, List.mem_singleton] at hpl
        subst hpl; intro h; cases h
      · simp [translate_block_ext, hb] at hpl
    | ToolUse a b c d => simp [translate_block_ext] at hpl
    | ToolResult a b c => simp [translate_block_ext] at hpl

/-- C10 witness: with latest = "SIG" cached, a non-final assistant message
    gets the signature-only part appended. -/
theorem C10_witness :
    (translate_msg_ext [("latest", "SIG")]
        ⟨"assistant", [.Text "a1"], none⟩).parts =
      [GeminiPart.text_part "a1", GeminiPart.signature_only "SIG"] := by
  have h := (C10_signature_replay
      ⟨"m", [⟨"assistant", [.Text "a1"], none⟩, ⟨"assistant", [.Text "a2"], none⟩]⟩
      [("latest", "SIG")]).1 "SIG" rfl
      ⟨"assistant", [.Text "a1"], none⟩ (by simp) rfl
  simpa [translate_block_ext] using h

/- ===== Schema sanitizer (converter.rs 829-975) ===== -/

def FIELDS_TO_REMOVE : List String :=
  ["$schema", "additionalProperties", "format", "default", "uniqueItems"]

def VALIDATION_FIELDS : List String :=
  ["minLength", "maxLength", "minimum", "maximum",
   "exclusiveMinimum", "exclusiveMaximum", "minItems", "maxItems"]

/-- str::to_uppercase on the character list (ASCII-faithful). -/
def str_to_upper (s : String) : String := ⟨s.data.map Char.toUpper⟩

def is_container : J → Bool
  | .jobj _ => true
  | .jarr _ => true
  | _ => false

/-- The collected validation constraints, in VALIDATION_FIELDS order, each
    rendered as "field: value" with the serde Display of the value. -/
def collect_validations (o : JObj) : List String :=
  VALIDATION_FIELDS.filterMap (fun f => (o.lookup f).map (fun v => f ++ ": " ++ renderJ v))

/-- First element of a type array whose as_str is not "null" (the filtered
    vector's first element). -/
def jarr_find_non_null : JArr → Option J
  | .nil => none
  | .cons x tl => if x.as_str = some "null" then jarr_find_non_null tl else some x

/-- Normalisation of an array-valued type (converter.rs 872-886): first
    non-"null" element, else the first element, else the string "string". -/
def normalize_type_array (types : JArr) : J :=
  match jarr_find_non_null types with
  | some t => t
  | none =>
    match types.head? with
    | some t => t
    | none => .jstr "string"

/-- Append one binding at the end of an object (map insert of a fresh key). -/
def JObj.push : JObj → String → J → JObj
  | .nil, k, v => .cons k v .nil
  | .cons k0 v0 tl, k, v => .cons k0 v0 (tl.push k v)

mutual

/-- uppercase_schema_types (converter.rs 933-975). -/
def uppercase_schema_types : J → J
  | .jobj o => .jobj (upper_fields o)
  | .jarr a => .jarr (upper_arr a)
  | x => x
termination_by structural j => j

def upper_arr : JArr → JArr
  | .nil => .nil
  | .cons x tl => .cons (uppercase_schema_types x) (upper_arr tl)
termination_by structural a => a

def upper_type_arr : JArr → JArr
  | .nil => .nil
  | .cons (.jstr s) tl => .cons (.jstr (str_to_upper s)) (upper_type_arr tl)
  | .cons x tl => .cons x (upper_type_arr tl)
termination_by structural a => a

def upper_fields : JObj → JObj
  | .nil => .nil
  | .cons k v tl =>
    if k = "type" then
      match v with
      | .jstr s => .cons k (.jstr (str_to_upper s)) (upper_fields tl)
      | .jarr a => .cons k (.jarr (upper_type_arr a)) (upper_fields tl)
      | _ => .cons k v (upper_fields tl)
    else if is_container v then .cons k (uppercase_schema_types v) (upper_fields tl)
    else .cons k v (upper_fields tl)
termination_by structural o => o

end

/-- Tail of clean_json_schema's object case (converter.rs 905-919): append a
    synthetic description when validations were collected and no description
    key survived the cleaning. -/
def maybe_push_validation (cleaned : JObj) (validations : List String) : JObj :=
  if validations ≠ [] ∧ (cleaned.lookup "description").isNone then
    cleaned.push "description"
      (.jstr ("Validation: " ++ String.intercalate ", " validations))
  else cleaned

mutual

/-- clean_json_schema (converter.rs 846-922). The source's catch-all value
    handling (recurse when the value is an object or an array, copy it
    verbatim otherwise — `is_container`) is expanded per constructor so that
    every equation of the function is unconditional. -/
def clean_json_schema : J → J
  | .jobj o =>
    uppercase_schema_types
      (.jobj (maybe_push_validation (clean_fields o (collect_validations o))
        (collect_validations o)))
  | .jarr a => .jarr (clean_arr a)
  | .null => .null
  | .jbool b => .jbool b
  | .jnum q => .jnum q
  | .jstr s => .jstr s

def clean_arr : JArr → JArr
  | .nil => .nil
  | .cons x tl => .cons (clean_json_schema x) (clean_arr tl)

def clean_fields : JObj → List String → JObj
  | .nil, _ => .nil
  | .cons k v tl, validations =>
    if FIELDS_TO_REMOVE.contains k then clean_fields tl validations
    else if VALIDATION_FIELDS.contains k then clean_fields tl validations
    else if k = "type" then
      match v with
      | .jarr types => .cons k (normalize_type_array types) (clean_fields tl validations)
      | .jobj o2 => .cons k (clean_json_schema (.jobj o2)) (clean_fields tl validations)
      | .null => .cons k .null (clean_fields tl validations)
      | .jbool b => .cons k (.jbool b) (clean_fields tl validations)
      | .jnum q => .cons k (.jnum q) (clean_fields tl validations)
      | .jstr s => .cons k (.jstr s) (clean_fields tl validations)
    else if k = "description" ∧ validations ≠ [] then
      match v with
      | .jstr desc =>
        .cons k (.jstr (desc ++ " (" ++ String.intercalate ", " validations ++ ")"))
          (clean_fields tl validations)
      | .jobj o2 => .cons k (clean_json_schema (.jobj o2)) (clean_fields tl validations)
      | .jarr a2 => .cons k (clean_json_schema (.jarr a2)) (clean_fields tl validations)
      | .null => .cons k .null (clean_fields tl validations)
      | .jbool b => .cons k (.jbool b) (clean_fields tl validations)
      | .jnum q => .cons k (.jnum q) (clean_fields tl validations)
    else
      match v with
      | .jobj o2 => .cons k (clean_json_schema (.jobj o2)) (clean_fields tl validations)
      | .jarr a2 => .cons k (clean_json_schema (.jarr a2)) (clean_fields tl validations)
      | .null => .cons k .null (clean_fields tl validations)
      | .jbool b => .cons k (.jbool b) (clean_fields tl validations)
      | .jnum q => .cons k (.jnum q) (clean_fields tl validations)
      | .jstr s => .cons k (.jstr s) (clean_fields tl validations)

end

example : clean_json_schema (J.obj
    [("type", J.arr [.jstr "string", .jstr "null"]),
     ("minLength", .jnum 3), ("description", .jstr "x")]) =
  J.obj [("type", .jstr "STRING"), ("description", .jstr "x (minLength: 3)")] := rfl

example : clean_json_schema (J.obj
    [("type", J.arr [J.obj [("$schema", .jstr "x"), ("type", .jstr "string")]])]) =
  J.obj [("type", J.obj [("$schema", .jstr "x"), ("type", .jstr "string")])] := rfl

/- ===== Predicates for the sanitizer claims ===== -/

def BANNED_KEYS : List String := FIELDS_TO_REMOVE ++ VALIDATION_FIELDS

mutual

/-- No object at any nesting level has a key from BANNED_KEYS. -/
def banned_free : J → Bool
  | .jobj o => banned_free_fields o
  | .jarr a => banned_free_arr a
  | _ => true
termination_by structural j => j

def banned_free_arr : JArr → Bool
  | .nil => true
  | .cons x tl => banned_free x && banned_free_arr tl
termination_by structural a => a

def banned_free_fields : JObj → Bool
  | .nil => true
  | .cons k v tl => !(BANNED_KEYS.contains k) && banned_free v && banned_free_fields tl
termination_by structural o => o

end

/-- The string is fixed by uppercasing (no lowercase ASCII letters). -/
def upper_ok (s : String) : Bool := s.data.all (fun c => c.toUpper = c)

def type_arr_upper : JArr → Bool
  | .nil => true
  | .cons (.jstr s) tl => upper_ok s && type_arr_upper tl
  | .cons _ tl => type_arr_upper tl

/-- Condition on the value of a "type" key: a string must be uppercase, and
    the string elements of an array must be uppercase. -/
def type_value_upper : J → Bool
  | .jstr s => upper_ok s
  | .jarr a => type_arr_upper a
  | _ => true

mutual

/-- Every string value of a "type" key, including string elements of
    array-valued types, is uppercase — at every nesting level. -/
def types_upper : J → Bool
  | .jobj o => types_upper_fields o
  | .jarr a => types_upper_arr a
  | _ => true
termination_by structural j => j

def types_upper_arr : JArr → Bool
  | .nil => true
  | .cons x tl => types_upper x && types_upper_arr tl
termination_by structural a => a

def types_upper_fields : JObj → Bool
  | .nil => true
  | .cons k v tl =>
    (if k = "type" then type_value_upper v else true) && types_upper v &&
      types_upper_fields tl
termination_by structural o => o

end

def all_strings : JArr → Bool
  | .nil => true
  | .cons (.jstr _) tl => all_strings tl
  | .cons _ _ => false

mutual

/-- The hypothesis of the amended claim: every array-valued "type" field, at
    any nesting level, contains only strings. -/
def type_arrays_ok : J → Bool
  | .jobj o => type_arrays_ok_fields o
  | .jarr a => type_arrays_ok_arr a
  | _ => true
termination_by structural j => j

def type_arrays_ok_arr : JArr → Bool
  | .nil => true
  | .cons x tl => type_arrays_ok x && type_arrays_ok_arr tl
termination_by structural a => a

def type_arrays_ok_fields : JObj → Bool
  | .nil => true
  | .cons k v tl =>
    (if k = "type" then
      (match v with
       | .jarr a => all_strings a
       | _ => true)
     else true) && type_arrays_ok v && type_arrays_ok_fields tl
termination_by structural o => o

end

mutual

/-- Readiness for uppercase_schema_types: type values are strings, or
    non-array values already satisfying types_upper (they are copied
    verbatim); other values are recursively ready. -/
def upper_ready : J → Bool
  | .jobj o => upper_ready_fields o
  | .jarr a => upper_ready_arr a
  | _ => true
termination_by structural j => j

def upper_ready_arr : JArr → Bool
  | .nil => true
  | .cons x tl => upper_ready x && upper_ready_arr tl
termination_by structural a => a

def upper_ready_fields : JObj → Bool
  | .nil => true
  | .cons k v tl =>
    (if k = "type" then
      (match v with
       | .jstr _ => true
       | .jarr _ => false
       | v => types_upper v)
     else upper_ready v) && upper_ready_fields tl
termination_by structural o => o

end

theorem char_ofNat_toNat_small (n : Nat) (h : n < 55296) : (Char.ofNat n).toNat = n := by
  rw [Char.ofNat, dif_pos (Or.inl h)]
  rfl

theorem char_toUpper_toNat (c : Char) :
    c.toUpper.toNat = if 97 ≤ c.toNat ∧ c.toNat ≤ 122 then c.toNat - 32 else c.toNat := by
  unfold Char.toUpper
  by_cases h : 97 ≤ c.toNat ∧ c.toNat ≤ 122
  · rw [if_pos ?_, if_pos h]
    · exact char_ofNat_toNat_small _ (by omega)
    · exact ⟨h.1, h.2⟩
  · rw [if_neg ?_, if_neg h]
    · intro hc; exact h ⟨hc.1, hc.2⟩

theorem char_toUpper_fix (x : Char) (h : ¬(97 ≤ x.toNat ∧ x.toNat ≤ 122)) :
    x.toUpper = x := by
  unfold Char.toUpper
  rw [if_neg ?_]
  · intro hc; exact h ⟨hc.1, hc.2⟩

theorem char_toUpper_idem (c : Char) : c.toUpper.toUpper = c.toUpper := by
  have h1 := char_toUpper_toNat c
  by_cases h : 97 ≤ c.toNat ∧ c.toNat ≤ 122
  · rw [if_pos h] at h1
    exact char_toUpper_fix c.toUpper (by omega)
  · rw [char_toUpper_fix c h, char_toUpper_fix c h]

theorem upper_ok_str_to_upper (s : String) : upper_ok (str_to_upper s) = true := by
  simp only [upper_ok, str_to_upper, List.all_eq_true]
  intro c hc
  obtain ⟨c0, -, rfl⟩ := List.mem_map.mp hc
  simp [char_toUpper_idem]

theorem banned_free_type_arr : ∀ (a : JArr), banned_free_arr a = true →
    banned_free_arr (upper_type_arr a) = true
  | .nil, _ => rfl
  | .cons x tl, h => by
    simp only [banned_free_arr, Bool.and_eq_true] at h
    cases x <;>
      simp only [upper_type_arr, banned_free_arr, Bool.and_eq_true] <;>
      exact ⟨h.1, banned_free_type_arr tl h.2⟩

theorem banned_free_fields_push : ∀ (o : JObj) (k : String) (v : J),
    banned_free_fields o = true → BANNED_KEYS.contains k = false →
    banned_free v = true → banned_free_fields (o.push k v) = true
  | .nil, k, v, _, hk, hv => by
    show (!(BANNED_KEYS.contains k) && banned_free v && banned_free_fields .nil) = true
    rw [hk, hv]
    rfl
  | .cons k0 v0 tl, k, v, h, hk, hv => by
    simp only [banned_free_fields, Bool.and_eq_true] at h
    simp only [JObj.push, banned_free_fields, Bool.and_eq_true]
    exact ⟨⟨h.1.1, h.1.2⟩, banned_free_fields_push tl k v h.2 hk hv⟩

theorem upper_ready_fields_push : ∀ (o : JObj) (k : String) (v : J),
    upper_ready_fields o = true → ¬k = "type" →
    upper_ready v = true → upper_ready_fields (o.push k v) = true
  | .nil, k, v, _, hk, hv => by
    simp [JObj.push, upper_ready_fields, hk, hv]
  | .cons k0 v0 tl, k, v, h, hk, hv => by
    simp only [upper_ready_fields, Bool.and_eq_true] at h
    simp only [JObj.push, upper_ready_fields, Bool.and_eq_true]
    exact ⟨h.1, upper_ready_fields_push tl k v h.2 hk hv⟩

theorem find_non_null_str : ∀ (a : JArr), all_strings a = true →
    ∀ t, jarr_find_non_null a = some t → ∃ s, t = J.jstr s
  | .nil, _, t, ht => by cases ht
  | .cons x tl, h, t, ht => by
    cases x with
    | jstr s =>
      simp only [jarr_find_non_null] at ht
      by_cases hn : (J.jstr s).as_str = some "null"
      · rw [if_pos hn] at ht
        exact find_non_null_str tl (by simpa [all_strings] using h) t ht
      · rw [if_neg hn] at ht
        exact ⟨s, by cases ht; rfl⟩
    | null => simp [all_strings] at h
    | jbool b => simp [all_strings] at h
    | jnum n => simp [all_strings] at h
    | jarr a2 => simp [all_strings] at h
    | jobj o2 => simp [all_strings] at h

theorem normalize_all_strings (a : JArr) (h : all_strings a = true) :
    ∃ s, normalize_type_array a = J.jstr s := by
  unfold normalize_type_array
  cases hf : jarr_find_non_null a with
  | some t =>
    obtain ⟨s, rfl⟩ := find_non_null_str a h t hf
    exact ⟨s, rfl⟩
  | none =>
    cases a with
    | nil => exact ⟨"string", rfl⟩
    | cons x tl =>
      cases x with
      | jstr s => exact ⟨s, rfl⟩
      | null => simp [all_strings] at h
      | jbool b => simp [all_strings] at h
      | jnum n => simp [all_strings] at h
      | jarr a2 => simp [all_strings] at h
      | jobj o2 => simp [all_strings] at h

mutual

theorem banned_free_upper : ∀ (j : J), banned_free j = true →
    banned_free (uppercase_schema_types j) = true
  | .null, _ => rfl
  | .jbool _, _ => rfl
  | .jnum _, _ => rfl
  | .jstr _, _ => rfl
  | .jarr a, h => banned_free_upper_arr a h
  | .jobj o, h => banned_free_upper_fields o h

theorem banned_free_upper_arr : ∀ (a : JArr), banned_free_arr a = true →
    banned_free_arr (upper_arr a) = true
  | .nil, _ => rfl
  | .cons x tl, h => by
    simp only [banned_free, banned_free_arr, Bool.and_eq_true] at h
    simp only [upper_arr, banned_free_arr, Bool.and_eq_true]
    exact ⟨banned_free_upper x h.1, banned_free_upper_arr tl h.2⟩

theorem banned_free_upper_fields : ∀ (o : JObj), banned_free_fields o = true →
    banned_free_fields (upper_fields o) = true
  | .nil, _ => rfl
  | .cons k v tl, h => by
    simp only [banned_free_fields, Bool.and_eq_true] at h
    obtain ⟨⟨hk, hv⟩, htl⟩ := h
    simp only [upper_fields]
    by_cases hkt : k = "type"
    · rw [if_pos hkt]
      cases v with
      | jstr s =>
        simp only [banned_free_fields, Bool.and_eq_true]
        exact ⟨⟨hk, rfl⟩, banned_free_upper_fields tl htl⟩
      | jarr a =>
        simp only [banned_free_fields, Bool.and_eq_true]
        exact ⟨⟨hk, banned_free_type_arr a hv⟩, banned_free_upper_fields tl htl⟩
      | null =>
        simp only [banned_free_fields, Bool.and_eq_true]
        exact ⟨⟨hk, hv⟩, banned_free_upper_fields tl htl⟩
      | jbool b =>
        simp only [banned_free_fields, Bool.and_eq_true]
        exact ⟨⟨hk, hv⟩, banned_free_upper_fields tl htl⟩
      | jnum n =>
        simp only [banned_free_fields, Bool.and_eq_true]
        exact ⟨⟨hk, hv⟩, banned_free_upper_fields tl htl⟩
      | jobj o2 =>
        simp only [banned_free_fields, Bool.and_eq_true]
        exact ⟨⟨hk, hv⟩, banned_free_upper_fields tl htl⟩
    · rw [if_neg hkt]
      by_cases hc : is_container v = true
      · rw [if_pos hc]
        simp only [banned_free_fields, Bool.and_eq_true]
        exact ⟨⟨hk, banned_free_upper v hv⟩, banned_free_upper_fields tl htl⟩
      · rw [if_neg hc]
        simp only [banned_free_fields, Bool.and_eq_true]
        exact ⟨⟨hk, hv⟩, banned_free_upper_fields tl htl⟩

end

mutual

theorem types_upper_upper : ∀ (j : J), upper_ready j = true →
    types_upper (uppercase_schema_types j) = true
  | .null, _ => rfl
  | .jbool _, _ => rfl
  | .jnum _, _ => rfl
  | .jstr _, _ => rfl
  | .jarr a, h => types_upper_upper_arr a h
  | .jobj o, h => types_upper_upper_fields o h

theorem types_upper_upper_arr : ∀ (a : JArr), upper_ready_arr a = true →
    types_upper_arr (upper_arr a) = true
  | .nil, _ => rfl
  | .cons x tl, h => by
    simp only [upper_ready_arr, Bool.and_eq_true] at h
    simp only [upper_arr, types_upper_arr, Bool.and_eq_true]
    exact ⟨types_upper_upper x h.1, types_upper_upper_arr tl h.2⟩

theorem types_upper_upper_fields : ∀ (o : JObj), upper_ready_fields o = true →
    types_upper_fields (upper_fields o) = true
  | .nil, _ => rfl
  | .cons k v tl, h => by
    simp only [upper_ready_fields, Bool.and_eq_true] at h
    obtain ⟨hv, htl⟩ := h
    simp only [upper_fields]
    by_cases hkt : k = "type"
    · rw [if_pos hkt] at hv ⊢
      cases v with
      | jstr s =>
        simp only [types_upper_fields, Bool.and_eq_true]
        refine ⟨⟨?_, ?_⟩, types_upper_upper_fields tl htl⟩
        · simpa [hkt, type_value_upper] using upper_ok_str_to_upper s
        · rfl
      | jarr a => simp at hv
      | null =>
        simp only [types_upper_fields, Bool.and_eq_true]
        exact ⟨⟨by simp [hkt, type_value_upper], by simp [types_upper]⟩,
          types_upper_upper_fields tl htl⟩
      | jbool b =>
        simp only [types_upper_fields, Bool.and_eq_true]
        exact ⟨⟨by simp [hkt, type_value_upper], by simp [types_upper]⟩,
          types_upper_upper_fields tl htl⟩
      | jnum n =>
        simp only [types_upper_fields, Bool.and_eq_true]
        exact ⟨⟨by simp [hkt, type_value_upper], by simpa using hv⟩,
          types_upper_upper_fields tl htl⟩
      | jobj o2 =>
        simp only [types_upper_fields, Bool.and_eq_true]
        exact ⟨⟨by simp [hkt, type_value_upper], by simpa using hv⟩,
          types_upper_upper_fields tl htl⟩
    · rw [if_neg hkt] at hv
      by_cases hc : is_container v = true
      · rw [if_neg hkt, if_pos hc]
        simp only [types_upper_fields, Bool.and_eq_true]
        exact ⟨⟨by simp [hkt], types_upper_upper v hv⟩, types_upper_upper_fields tl htl⟩
      · rw [if_neg hkt, if_neg hc]
        simp only [types_upper_fields, Bool.and_eq_true]
        refine ⟨⟨by simp [hkt], ?_⟩, types_upper_upper_fields tl htl⟩
        cases v with
        | null => rfl
        | jbool b => rfl
        | jnum n => rfl
        | jstr s => rfl
        | jarr a => simp [is_container] at hc
        | jobj o2 => simp [is_container] at hc

end

mutual

theorem upper_ready_upper : ∀ (j : J), upper_ready j = true →
    upper_ready (uppercase_schema_types j) = true
  | .null, _ => rfl
  | .jbool _, _ => rfl
  | .jnum _, _ => rfl
  | .jstr _, _ => rfl
  | .jarr a, h => upper_ready_upper_arr a h
  | .jobj o, h => upper_ready_upper_fields o h

theorem upper_ready_upper_arr : ∀ (a : JArr), upper_ready_arr a = true →
    upper_ready_arr (upper_arr a) = true
  | .nil, _ => rfl
  | .cons x tl, h => by
    simp only [upper_ready_arr, Bool.and_eq_true] at h
    simp only [upper_arr, upper_ready_arr, Bool.and_eq_true]
    exact ⟨upper_ready_upper x h.1, upper_ready_upper_arr tl h.2⟩

theorem upper_ready_upper_fields : ∀ (o : JObj), upper_ready_fields o = true →
    upper_ready_fields (upper_fields o) = true
  | .nil, _ => rfl
  | .cons k v tl, h => by
    simp only [upper_ready_fields, Bool.and_eq_true] at h
    obtain ⟨hv, htl⟩ := h
    simp only [upper_fields]
    by_cases hkt : k = "type"
    · rw [if_pos hkt] at hv ⊢
      cases v with
      | jstr s =>
        simp only [upper_ready_fields, Bool.and_eq_true]
        exact ⟨by simp [hkt], upper_ready_upper_fields tl htl⟩
      | jarr a => simp at hv
      | null =>
        simp only [upper_ready_fields, Bool.and_eq_true]
        exact ⟨by simp [hkt, types_upper], upper_ready_upper_fields tl htl⟩
      | jbool b =>
        simp only [upper_ready_fields, Bool.and_eq_true]
        exact ⟨by simp [hkt, types_upper], upper_ready_upper_fields tl htl⟩
      | jnum n =>
        simp only [upper_ready_fields, Bool.and_eq_true]
        exact ⟨by simpa [hkt] using hv, upper_ready_upper_fields tl htl⟩
      | jobj o2 =>
        simp only [upper_ready_fields, Bool.and_eq_true]
        exact ⟨by simpa [hkt] using hv, upper_ready_upper_fields tl htl⟩
    · rw [if_neg hkt] at hv
      by_cases hc : is_container v = true
      · rw [if_neg hkt, if_pos hc]
        simp only [upper_ready_fields, Bool.and_eq_true]
        exact ⟨by simpa [hkt] using upper_ready_upper v hv,
          upper_ready_upper_fields tl htl⟩
      · rw [if_neg hkt, if_neg hc]
        simp only [upper_ready_fields, Bool.and_eq_true]
        exact ⟨by simpa [hkt] using hv, upper_ready_upper_fields tl htl⟩

end

theorem banned_free_scalar (v : J) (hc : is_container v = false) :
    banned_free v = true := by
  cases v with
  | null => rfl
  | jbool b => rfl
  | jnum n => rfl
  | jstr s => rfl
  | jarr a => simp [is_container] at hc
  | jobj o => simp [is_container] at hc

theorem upper_ready_scalar (v : J) (hc : is_container v = false) :
    upper_ready v = true := by
  cases v with
  | null => rfl
  | jbool b => rfl
  | jnum n => rfl
  | jstr s => rfl
  | jarr a => simp [is_container] at hc
  | jobj o => simp [is_container] at hc

theorem types_upper_scalar (v : J) (hc : is_container v = false) :
    types_upper v = true := by
  cases v with
  | null => rfl
  | jbool b => rfl
  | jnum n => rfl
  | jstr s => rfl
  | jarr a => simp [is_container] at hc
  | jobj o => simp [is_container] at hc

theorem uppercase_jobj (X : JObj) :
    uppercase_schema_types (J.jobj X) = J.jobj (upper_fields X) := by
  simp [uppercase_schema_types]

theorem clean_obj_shape (o2 : JObj) :
    ∃ Y, clean_json_schema (J.jobj o2) = J.jobj Y := by
  simp only [clean_json_schema, uppercase_jobj]
  exact ⟨_, rfl⟩

theorem clean_ok_meas : ∀ n : Nat,
    (∀ j : J, sizeOf j ≤ n → type_arrays_ok j = true →
      banned_free (clean_json_schema j) = true ∧
      types_upper (clean_json_schema j) = true ∧
      upper_ready (clean_json_schema j) = true) ∧
    (∀ a : JArr, sizeOf a ≤ n → type_arrays_ok_arr a = true →
      banned_free_arr (clean_arr a) = true ∧
      types_upper_arr (clean_arr a) = true ∧
      upper_ready_arr (clean_arr a) = true) ∧
    (∀ o : JObj, ∀ vs : List String, sizeOf o ≤ n →
      type_arrays_ok_fields o = true →
      banned_free_fields (clean_fields o vs) = true ∧
      upper_ready_fields (clean_fields o vs) = true) := by
  intro n
  induction n with
  | zero =>
    refine ⟨?_, ?_, ?_⟩
    · intro j hj _
      cases j <;> simp at hj
    · intro a ha _
      cases a <;> simp at ha
    · intro o vs ho _
      cases o <;> simp at ho
  | succ n ih =>
    obtain ⟨ihJ, ihA, ihO⟩ := ih
    refine ⟨?_, ?_, ?_⟩
    · intro j hj h
      cases j with
      | null => exact ⟨rfl, rfl, rfl⟩
      | jbool b =>
        simp only [clean_json_schema]
        exact ⟨rfl, rfl, rfl⟩
      | jnum q =>
        simp only [clean_json_schema]
        exact ⟨rfl, rfl, rfl⟩
      | jstr s =>
        simp only [clean_json_schema]
        exact ⟨rfl, rfl, rfl⟩
      | jarr a =>
        obtain ⟨b1, t1, r1⟩ := ihA a (by simp at hj ⊢; omega)
          (by simpa [type_arrays_ok] using h)
        simp only [clean_json_schema]
        exact ⟨by simpa [banned_free] using b1, by simpa [types_upper] using t1,
          by simpa [upper_ready] using r1⟩
      | jobj o =>
        obtain ⟨bf, ur⟩ := ihO o (collect_validations o) (by simp at hj ⊢; omega)
          (by simpa [type_arrays_ok] using h)
        simp only [clean_json_schema, maybe_push_validation]
        by_cases hcond : collect_validations o ≠ [] ∧
            ((clean_fields o (collect_validations o)).lookup "description").isNone = true
        · rw [if_pos hcond]
          have hb2 := banned_free_fields_push (clean_fields o (collect_validations o))
            "description"
            (.jstr ("Validation: " ++ String.intercalate ", " (collect_validations o)))
            bf (by decide) rfl
          have hr2 := upper_ready_fields_push (clean_fields o (collect_validations o))
            "description"
            (.jstr ("Validation: " ++ String.intercalate ", " (collect_validations o)))
            ur (by decide) rfl
          refine ⟨?_, ?_, ?_⟩
          · have := banned_free_upper (J.jobj ((clean_fields o
              (collect_validations o)).push "description"
              (.jstr ("Validation: " ++ String.intercalate ", " (collect_validations o)))))
              (by simpa [banned_free] using hb2)
            simpa [banned_free] using this
          · have := types_upper_upper (J.jobj ((clean_fields o
              (collect_validations o)).push "description"
              (.jstr ("Validation: " ++ String.intercalate ", " (collect_validations o)))))
              (by simpa [upper_ready] using hr2)
            simpa [types_upper] using this
          · have := upper_ready_upper (J.jobj ((clean_fields o
              (collect_validations o)).push "description"
              (.jstr ("Validation: " ++ String.intercalate ", " (collect_validations o)))))
              (by simpa [upper_ready] using hr2)
            simpa [upper_ready] using this
        · rw [if_neg hcond]
          refine ⟨?_, ?_, ?_⟩
          · have := banned_free_upper (J.jobj (clean_fields o (collect_validations o)))
              (by simpa [banned_free] using bf)
            simpa [banned_free] using this
          · have := types_upper_upper (J.jobj (clean_fields o (collect_validations o)))
              (by simpa [upper_ready] using ur)
            simpa [types_upper] using this
          · have := upper_ready_upper (J.jobj (clean_fields o (collect_validations o)))
              (by simpa [upper_ready] using ur)
            simpa [upper_ready] using this
    · intro a ha h
      cases a with
      | nil => exact ⟨rfl, rfl, rfl⟩
      | cons x tl =>
        simp only [type_arrays_ok_arr, Bool.and_eq_true] at h
        obtain ⟨b1, t1, r1⟩ := ihJ x (by simp at ha ⊢; omega) h.1
        obtain ⟨b2, t2, r2⟩ := ihA tl (by simp at ha ⊢; omega) h.2
        simp only [clean_arr, banned_free_arr, types_upper_arr, upper_ready_arr,
          Bool.and_eq_true]
        exact ⟨⟨b1, b2⟩, ⟨t1, t2⟩, ⟨r1, r2⟩⟩
    · intro o vs ho h
      cases o with
      | nil => exact ⟨rfl, rfl⟩
      | cons k v tl =>
        simp only [type_arrays_ok_fields, Bool.and_eq_true] at h
        obtain ⟨⟨hk_ty, hv⟩, htl⟩ := h
        obtain ⟨btl, rtl⟩ := ihO tl vs (by simp at ho ⊢; omega) htl
        by_cases h1 : FIELDS_TO_REMOVE.contains k = true
        · cases v <;> simp only [clean_fields] <;> rw [if_pos h1] <;> exact ⟨btl, rtl⟩
        · by_cases h2 : VALIDATION_FIELDS.contains k = true
          · cases v <;> simp only [clean_fields] <;> rw [if_neg h1, if_pos h2] <;>
              exact ⟨btl, rtl⟩
          · have h1f : FIELDS_TO_REMOVE.contains k = false := by
              revert h1; cases FIELDS_TO_REMOVE.contains k <;> simp
            have h2f : VALIDATION_FIELDS.contains k = false := by
              revert h2; cases VALIDATION_FIELDS.contains k <;> simp
            have hknb : BANNED_KEYS.contains k = false := by
              have e : BANNED_KEYS.contains k =
                  (FIELDS_TO_REMOVE.contains k || VALIDATION_FIELDS.contains k) := by
                simp [BANNED_KEYS]
              rw [e, h1f, h2f]
              rfl
            by_cases hkt : k = "type"
            · cases v with
              | jarr types =>
                simp only [clean_fields]
                rw [if_neg h1, if_neg h2, if_pos hkt]
                have hall : all_strings types = true := by simpa [hkt] using hk_ty
                obtain ⟨s, hs⟩ := normalize_all_strings types hall
                rw [hs]
                simp only [banned_free_fields, upper_ready_fields, Bool.and_eq_true]
                exact ⟨⟨⟨by simpa using hknb, rfl⟩, btl⟩, ⟨by simp [hkt], rtl⟩⟩
              | null =>
                simp only [clean_fields]
                rw [if_neg h1, if_neg h2, if_pos hkt]
                simp only [banned_free_fields, upper_ready_fields, Bool.and_eq_true]
                exact ⟨⟨⟨by simpa using hknb, rfl⟩, btl⟩, ⟨by simp [hkt, types_upper], rtl⟩⟩
              | jbool b =>
                simp only [clean_fields]
                rw [if_neg h1, if_neg h2, if_pos hkt]
                simp only [banned_free_fields, upper_ready_fields, Bool.and_eq_true]
                exact ⟨⟨⟨by simpa using hknb, rfl⟩, btl⟩, ⟨by simp [hkt, types_upper], rtl⟩⟩
              | jnum q =>
                simp only [clean_fields]
                rw [if_neg h1, if_neg h2, if_pos hkt]
                simp only [banned_free_fields, upper_ready_fields, Bool.and_eq_true]
                exact ⟨⟨⟨by simpa using hknb, rfl⟩, btl⟩, ⟨by simp [hkt, types_upper], rtl⟩⟩
              | jstr s =>
                simp only [clean_fields]
                rw [if_neg h1, if_neg h2, if_pos hkt]
                simp only [banned_free_fields, upper_ready_fields, Bool.and_eq_true]
                exact ⟨⟨⟨by simpa using hknb, rfl⟩, btl⟩, ⟨by simp [hkt], rtl⟩⟩
              | jobj o2 =>
                simp only [clean_fields]
                rw [if_neg h1, if_neg h2, if_pos hkt]
                obtain ⟨bo, t0, r0⟩ := ihJ (J.jobj o2) (by simp at ho ⊢; omega) hv
                obtain ⟨Y, hY⟩ := clean_obj_shape o2
                simp only [banned_free_fields, upper_ready_fields, Bool.and_eq_true]
                refine ⟨⟨⟨by simpa using hknb, bo⟩, btl⟩, ⟨?_, rtl⟩⟩
                rw [if_pos hkt, hY]
                show types_upper (J.jobj Y) = true
                rw [← hY]
                exact t0
            · by_cases hdesc : k = "description" ∧ vs ≠ []
              · cases v with
                | jstr desc =>
                  simp only [clean_fields]
                  rw [if_neg h1, if_neg h2, if_neg hkt, if_pos hdesc]
                  simp only [banned_free_fields, upper_ready_fields, Bool.and_eq_true]
                  exact ⟨⟨⟨by simpa using hknb, rfl⟩, btl⟩,
                    ⟨by simp [hkt, upper_ready], rtl⟩⟩
                | null =>
                  simp only [clean_fields]
                  rw [if_neg h1, if_neg h2, if_neg hkt, if_pos hdesc]
                  simp only [banned_free_fields, upper_ready_fields, Bool.and_eq_true]
                  exact ⟨⟨⟨by simpa using hknb, rfl⟩, btl⟩,
                    ⟨by simp [hkt, upper_ready], rtl⟩⟩
                | jbool b =>
                  simp only [clean_fields]
                  rw [if_neg h1, if_neg h2, if_neg hkt, if_pos hdesc]
                  simp only [banned_free_fields, upper_ready_fields, Bool.and_eq_true]
                  exact ⟨⟨⟨by simpa using hknb, rfl⟩, btl⟩,
                    ⟨by simp [hkt, upper_ready], rtl⟩⟩
                | jnum q =>
                  simp only [clean_fields]
                  rw [if_neg h1, if_neg h2, if_neg hkt, if_pos hdesc]
                  simp only [banned_free_fields, upper_ready_fields, Bool.and_eq_true]
                  exact ⟨⟨⟨by simpa using hknb, rfl⟩, btl⟩,
                    ⟨by simp [hkt, upper_ready], rtl⟩⟩
                | jarr a2 =>
                  simp only [clean_fields]
                  rw [if_neg h1, if_neg h2, if_neg hkt, if_pos hdesc]
                  obtain ⟨bo, t0, r0⟩ := ihJ (J.jarr a2) (by simp at ho ⊢; omega) hv
                  simp only [banned_free_fields, upper_ready_fields, Bool.and_eq_true]
                  exact ⟨⟨⟨by simpa using hknb, bo⟩, btl⟩, ⟨by simpa [hkt] using r0, rtl⟩⟩
                | jobj o2 =>
                  simp only [clean_fields]
                  rw [if_neg h1, if_neg h2, if_neg hkt, if_pos hdesc]
                  obtain ⟨bo, t0, r0⟩ := ihJ (J.jobj o2) (by simp at ho ⊢; omega) hv
                  simp only [banned_free_fields, upper_ready_fields, Bool.and_eq_true]
                  exact ⟨⟨⟨by simpa using hknb, bo⟩, btl⟩, ⟨by simpa [hkt] using r0, rtl⟩⟩
              · cases v with
                | null =>
                  simp only [clean_fields]
                  rw [if_neg h1, if_neg h2, if_neg hkt, if_neg hdesc]
                  simp only [banned_free_fields, upper_ready_fields, Bool.and_eq_true]
                  exact ⟨⟨⟨by simpa using hknb, rfl⟩, btl⟩,
                    ⟨by simp [hkt, upper_ready], rtl⟩⟩
                | jbool b =>
                  simp only [clean_fields]
                  rw [if_neg h1, if_neg h2, if_neg hkt, if_neg hdesc]
                  simp only [banned_free_fields, upper_ready_fields, Bool.and_eq_true]
                  exact ⟨⟨⟨by simpa using hknb, rfl⟩, btl⟩,
                    ⟨by simp [hkt, upper_ready], rtl⟩⟩
                | jnum q =>
                  simp only [clean_fields]
                  rw [if_neg h1, if_neg h2, if_neg hkt, if_neg hdesc]
                  simp only [banned_free_fields, upper_ready_fields, Bool.and_eq_true]
                  exact ⟨⟨⟨by simpa using hknb, rfl⟩, btl⟩,
                    ⟨by simp [hkt, upper_ready], rtl⟩⟩
                | jstr s =>
                  simp only [clean_fields]
                  rw [if_neg h1, if_neg h2, if_neg hkt, if_neg hdesc]
                  simp only [banned_free_fields, upper_ready_fields, Bool.and_eq_true]
                  exact ⟨⟨⟨by simpa using hknb, rfl⟩, btl⟩,
                    ⟨by simp [hkt, upper_ready], rtl⟩⟩
                | jarr a2 =>
                  simp only [clean_fields]
                  rw [if_neg h1, if_neg h2, if_neg hkt, if_neg hdesc]
                  obtain ⟨bo, t0, r0⟩ := ihJ (J.jarr a2) (by simp at ho ⊢; omega) hv
                  simp only [banned_free_fields, upper_ready_fields, Bool.and_eq_true]
                  exact ⟨⟨⟨by simpa using hknb, bo⟩, btl⟩, ⟨by simpa [hkt] using r0, rtl⟩⟩
                | jobj o2 =>
                  simp only [clean_fields]
                  rw [if_neg h1, if_neg h2, if_neg hkt, if_neg hdesc]
                  obtain ⟨bo, t0, r0⟩ := ihJ (J.jobj o2) (by simp at ho ⊢; omega) hv
                  simp only [banned_free_fields, upper_ready_fields, Bool.and_eq_true]
                  exact ⟨⟨⟨by simpa using hknb, bo⟩, btl⟩, ⟨by simpa [hkt] using r0, rtl⟩⟩

theorem clean_ok (j : J) (h : type_arrays_ok j = true) :
    banned_free (clean_json_schema j) = true ∧
    types_upper (clean_json_schema j) = true ∧
    upper_ready (clean_json_schema j) = true :=
  (clean_ok_meas (sizeOf j)).1 j le_rfl h

/-- The S6 input schema from the spec. -/
def s6_schema : J := J.obj
  [("type", J.arr [.jstr "string", .jstr "null"]),
   ("minLength", .jnum 3), ("description", .jstr "x")]

/-- The S6 output schema from the spec. -/
def s6_expected : J := J.obj
  [("type", .jstr "STRING"), ("description", .jstr "x (minLength: 3)")]

/-- A schema whose array-valued "type" holds an object: normalize_type_array
    copies the non-string element verbatim, so the object inside — with its
    "$schema" key and lowercase "type":"string" — survives cleaning untouched. -/
def c8_cx : J := J.obj
  [("type", J.arr [J.obj [("$schema", .jstr "x"), ("type", .jstr "string")]])]

/-- C8 (amended): the sanitizer claim fails as stated for schemas whose
    array-valued "type" contains non-string elements (see C8_counterexample);
    under the amended hypothesis that every array-valued "type" at every
    nesting level contains only strings, the output of clean_json_schema is
    free of all stripped keys (FIELDS_TO_REMOVE and VALIDATION_FIELDS) at
    every nesting level and every string value of a "type" key, including
    string elements of array-valued types, is uppercase; the S6 example
    rewrites exactly as the spec states. -/
theorem C8_sanitizer (σ : J) (h : type_arrays_ok σ = true) :
    banned_free (clean_json_schema σ) = true ∧
    types_upper (clean_json_schema σ) = true ∧
    clean_json_schema s6_schema = s6_expected :=
  ⟨(clean_ok σ h).1, (clean_ok σ h).2.1, rfl⟩

/-- C8 witness: the S6 schema satisfies the amended hypothesis, and
    C8_sanitizer applied to it yields the guarantees, including the spec's
    S6 rewrite. -/
theorem C8_witness :
    type_arrays_ok s6_schema = true ∧
    (banned_free (clean_json_schema s6_schema) = true ∧
     types_upper (clean_json_schema s6_schema) = true ∧
     clean_json_schema s6_schema = s6_expected) :=
  ⟨by decide, C8_sanitizer s6_schema (by decide)⟩

/-- C8 counterexample to the unconditional claim: cleaning c8_cx leaves the
    object element of the "type" array untouched, so a "$schema" key survives
    in the output and a lowercase "type" value remains. -/
theorem C8_counterexample :
    clean_json_schema c8_cx =
      J.obj [("type", J.obj [("$schema", .jstr "x"), ("type", .jstr "string")])] ∧
    banned_free (clean_json_schema c8_cx) = false ∧
    types_upper (clean_json_schema c8_cx) = false :=
  ⟨rfl, by decide, by decide⟩
